import Mathlib

/-!
Verification of the LDraw builder / codec / sandbox / viewer core of the
FrontEnd-Hackathon repository, as a shallow embedding in Lean.

Numeric convention: the source manipulates JavaScript numbers.  Every value the
builder API writes and the codec prints in this repository is integer-valued
(positions, color codes, the fixed rotation-matrix entries), and JavaScript
doubles represent these integers exactly, so the embedding models the numeric
fields as `Int`.  A value produced by a failed `parseInt`/`parseFloat` (NaN) is
modelled as `none` in an `Option Int`.
-/

/-- The whitespace characters relevant to the source's `trim`, `split(/\s+/)`
and the validator's `\s` character class. -/
def isWsChar (c : Char) : Bool :=
  c == ' ' || c == '\t' || c == '\n' || c == '\r'

/-- Drop trailing characters satisfying `p` (helper for `trimChars`). -/
def dropTrailing (p : Char → Bool) (cs : List Char) : List Char :=
  (cs.reverse.dropWhile p).reverse

/-- Model of JavaScript `String.prototype.trim`. -/
def trimChars (cs : List Char) : List Char :=
  dropTrailing isWsChar (cs.dropWhile isWsChar)

/-- Model of JavaScript `split(sep)` for a single-character separator
(`content.split('\n')` in the parser). -/
def splitOnChar (sep : Char) : List Char → List (List Char)
  | [] => [[]]
  | c :: cs =>
    if c == sep then [] :: splitOnChar sep cs
    else
      match splitOnChar sep cs with
      | [] => [[c]]
      | t :: ts => (c :: t) :: ts

/-- Model of JavaScript `Array.prototype.join(sep)` for a one-character
separator (`lines.join('\n')` in the serializer). -/
def joinChar (sep : Char) : List (List Char) → List Char
  | [] => []
  | [l] => l
  | l :: ls => l ++ sep :: joinChar sep ls

/-- Accumulator worker for `wordsChars`: `cur` holds the reversed current
word. -/
def wordsAux (cur : List Char) : List Char → List (List Char)
  | [] => if cur.isEmpty then [] else [cur.reverse]
  | c :: cs =>
    if isWsChar c then
      if cur.isEmpty then wordsAux [] cs else cur.reverse :: wordsAux [] cs
    else wordsAux (c :: cur) cs

/-- Model of `trimmed.split(/\s+/)` on an already-trimmed string: the maximal
runs of non-whitespace characters, in order. -/
def wordsChars (cs : List Char) : List (List Char) :=
  wordsAux [] cs

/-- Is `p` a prefix of `cs`? (Boolean, executable.) -/
def isPrefixCh : List Char → List Char → Bool
  | [], _ => true
  | _ :: _, [] => false
  | a :: as, b :: bs => a == b && isPrefixCh as bs

/-- Does `cs` contain `pat` as a contiguous substring?  Models
`String.prototype.includes` and the validator's literal regex patterns. -/
def containsSubChars (pat : List Char) : List Char → Bool
  | [] => isPrefixCh pat []
  | c :: cs => isPrefixCh pat (c :: cs) || containsSubChars pat cs

/-- The decimal digit characters, for printing. -/
def digitCh (d : Nat) : Char :=
  if d = 0 then '0' else if d = 1 then '1' else if d = 2 then '2'
  else if d = 3 then '3' else if d = 4 then '4' else if d = 5 then '5'
  else if d = 6 then '6' else if d = 7 then '7' else if d = 8 then '8'
  else '9'

def isDigitChar (c : Char) : Bool :=
  48 ≤ c.toNat && c.toNat ≤ 57

def digitVal (c : Char) : Nat := c.toNat - 48

/-- Fuel-indexed worker for decimal printing (the fuel only needs to exceed
the digit count; `natToChars` supplies plenty). -/
def natToCharsFuel : Nat → Nat → List Char
  | 0, _ => []
  | fuel + 1, n =>
    if n < 10 then [digitCh n]
    else natToCharsFuel fuel (n / 10) ++ [digitCh (n % 10)]

/-- Decimal printing of a natural number, as JavaScript template interpolation
renders an integer-valued number. -/
def natToChars (n : Nat) : List Char :=
  natToCharsFuel (n + 1) n

/-- Decimal printing of an integer (`${part.x}` in the serializer, for the
integer-valued numbers this repository produces). -/
def intToChars (n : Int) : List Char :=
  if n < 0 then '-' :: natToChars (-n).toNat else natToChars n.toNat

def digitsVal (cs : List Char) : Nat :=
  cs.foldl (fun a c => 10 * a + digitVal c) 0

/-- Model of `parseInt`/`parseFloat` on the token vocabulary of this codec: an
optional sign followed by a maximal digit prefix; `none` models NaN.  (The
serializer only ever emits integer decimal tokens, so fractional syntax never
arises in a round trip.) -/
def parseIntChars (cs : List Char) : Option Int :=
  match cs with
  | [] => none
  | c :: rest =>
    if c == '-' then
      let ds := rest.takeWhile isDigitChar
      if ds.isEmpty then none else some (-(digitsVal ds : Int))
    else
      let ds := (c :: rest).takeWhile isDigitChar
      if ds.isEmpty then none else some (digitsVal ds : Int)

/-! ### Builder object model — `ldrawBuilder.ts` (`LDrawBuilder`) -/

namespace LdrawBuilderTs

/-- One `lineType: 1` part placement record pushed by `addPart`.  `partName`
already carries the `.dat` suffix, as in the source. -/
structure PartPlacement where
  color : Int
  x : Int
  y : Int
  z : Int
  a : Int
  b : Int
  c : Int
  d : Int
  e : Int
  f : Int
  g : Int
  h : Int
  i : Int
  partName : String
deriving DecidableEq

/-- The CLI-side builder state (`ldrawBuilder.ts`): an ordered part list plus
metadata, with the source's field defaults. -/
structure LDrawBuilder where
  parts : List PartPlacement := []
  currentColor : Int := 16
  modelName : String := "Untitled Model"
  author : String := "AI Builder"
deriving DecidableEq

def mkBuilder (modelName : Option String) : LDrawBuilder :=
  match modelName with
  | some n => { modelName := n }
  | none => {}

def setModelName (b : LDrawBuilder) (name : String) : LDrawBuilder :=
  { b with modelName := name }

def setAuthor (b : LDrawBuilder) (author : String) : LDrawBuilder :=
  { b with author := author }

def setColor (b : LDrawBuilder) (colorCode : Int) : LDrawBuilder :=
  { b with currentColor := colorCode }

/-- `addPart` with the source's default matrix arguments `1 0 0 0 1 0 0 0 1`
made explicit at each call site. -/
def addPart (b : LDrawBuilder) (partNum : String) (color : Int)
    (x y z : Int) (a : Int := 1) (bb : Int := 0) (c : Int := 0)
    (d : Int := 0) (e : Int := 1) (f : Int := 0)
    (g : Int := 0) (h : Int := 0) (i : Int := 1) : LDrawBuilder :=
  { b with parts := b.parts ++
      [{ color := color, x := x, y := y, z := z,
         a := a, b := bb, c := c, d := d, e := e, f := f,
         g := g, h := h, i := i, partName := partNum ++ ".dat" }] }

def addBrick (b : LDrawBuilder) (partNum : String) (color : Int)
    (x y z : Int) : LDrawBuilder :=
  addPart b partNum color x y z

def addPlate (b : LDrawBuilder) (partNum : String) (color : Int)
    (x y z : Int) : LDrawBuilder :=
  addPart b partNum color x y z

def addWheel (b : LDrawBuilder) (partNum : String) (x y z : Int) : LDrawBuilder :=
  addPart b partNum 0 x y z

def addPartRotatedY90 (b : LDrawBuilder) (partNum : String) (color : Int)
    (x y z : Int) : LDrawBuilder :=
  addPart b partNum color x y z 0 0 (-1) 0 1 0 1 0 0

def addPartRotatedX90 (b : LDrawBuilder) (partNum : String) (color : Int)
    (x y z : Int) : LDrawBuilder :=
  addPart b partNum color x y z 1 0 0 0 0 (-1) 0 1 0

def clear (b : LDrawBuilder) : LDrawBuilder :=
  { b with parts := [] }

def getPartCount (b : LDrawBuilder) : Nat :=
  b.parts.length

/-- The 15 whitespace-separated fields of a type-1 line, in emission order. -/
def partTokens (p : PartPlacement) : List (List Char) :=
  [['1'], intToChars p.color, intToChars p.x, intToChars p.y, intToChars p.z,
   intToChars p.a, intToChars p.b, intToChars p.c,
   intToChars p.d, intToChars p.e, intToChars p.f,
   intToChars p.g, intToChars p.h, intToChars p.i,
   p.partName.toList]

/-- The serialized placement line: the template string
`1 ${color} ${x} ${y} ${z} ${a} … ${i} ${partName}` of `generateLDraw`. -/
def partLine (p : PartPlacement) : List Char :=
  joinChar ' ' (partTokens p)

def stepLine : List Char := "0 STEP".toList

/-- The lines pushed by `generateLDraw` in `ldrawBuilder.ts`: header block,
one line per part, then an unconditional trailing `0 STEP` and a blank line. -/
def generateLines (b : LDrawBuilder) : List (List Char) :=
  [("0 " ++ b.modelName).toList,
   "0 Name: model.ldr".toList,
   ("0 Author: " ++ b.author).toList,
   "0 !LICENSE Licensed under CC BY 4.0".toList,
   [],
   "0 BFC CERTIFY CCW".toList,
   []]
  ++ b.parts.map partLine
  ++ [stepLine, []]

/-- `generateLDraw`: the joined document text. -/
def generateLDraw (b : LDrawBuilder) : String :=
  String.mk (joinChar '\n' (generateLines b))

end LdrawBuilderTs

/-! ### Builder object model — `LDrawCodeEditor.tsx` step-aware variant -/

namespace CodeEditorTs

/-- Elements of the editor builder's `elements` array: a part record or a
`{ lineType: 0, command: 'STEP' }` marker. -/
inductive LElement
  | part (p : LdrawBuilderTs.PartPlacement)
  | step
deriving DecidableEq

/-- The editor-side builder state (second `LDrawCodeEditor.tsx` variant, the
one with `addStep`/`save`). -/
structure EBuilder where
  elements : List LElement := []
  currentColor : Int := 16
  modelName : String := "Untitled Model"
  author : String := "AI Builder"
deriving DecidableEq

def setModelName (b : EBuilder) (name : String) : EBuilder :=
  { b with modelName := name }

def setAuthor (b : EBuilder) (author : String) : EBuilder :=
  { b with author := author }

def setColor (b : EBuilder) (colorCode : Int) : EBuilder :=
  { b with currentColor := colorCode }

/-- `addStep`: push a step marker only when the element list is non-empty and
its last element is not already a step marker. -/
def addStep (b : EBuilder) : EBuilder :=
  match b.elements.getLast? with
  | none => b
  | some e =>
    if e = LElement.step then b
    else { b with elements := b.elements ++ [LElement.step] }

def addPart (b : EBuilder) (partNum : String) (color : Int)
    (x y z : Int) (a : Int := 1) (bb : Int := 0) (c : Int := 0)
    (d : Int := 0) (e : Int := 1) (f : Int := 0)
    (g : Int := 0) (h : Int := 0) (i : Int := 1) : EBuilder :=
  { b with elements := b.elements ++
      [LElement.part
        { color := color, x := x, y := y, z := z,
          a := a, b := bb, c := c, d := d, e := e, f := f,
          g := g, h := h, i := i, partName := partNum ++ ".dat" }] }

def addBrick (b : EBuilder) (partNum : String) (color : Int)
    (x y z : Int) : EBuilder :=
  addPart b partNum color x y z

def addPlate (b : EBuilder) (partNum : String) (color : Int)
    (x y z : Int) : EBuilder :=
  addPart b partNum color x y z

def addWheel (b : EBuilder) (partNum : String) (x y z : Int) : EBuilder :=
  addPart b partNum 0 x y z

def addPartRotatedY90 (b : EBuilder) (partNum : String) (color : Int)
    (x y z : Int) : EBuilder :=
  addPart b partNum color x y z 0 0 (-1) 0 1 0 1 0 0

def addPartRotatedX90 (b : EBuilder) (partNum : String) (color : Int)
    (x y z : Int) : EBuilder :=
  addPart b partNum color x y z 1 0 0 0 0 (-1) 0 1 0

def clear (b : EBuilder) : EBuilder :=
  { b with elements := [] }

def getPartCount (b : EBuilder) : Nat :=
  (b.elements.filter (fun el => match el with
    | LElement.part _ => true
    | LElement.step => false)).length

/-- Lines emitted for one element inside the `generateLDraw` loop: a part line,
or a step directive followed by a readability blank line. -/
def elemLines : LElement → List (List Char)
  | LElement.part p => [LdrawBuilderTs.partLine p]
  | LElement.step => [LdrawBuilderTs.stepLine, []]

/-- Does the element list end in a step marker?  (The serializer's trailing
check on `this.elements[this.elements.length - 1]`.) -/
def endsInStep (els : List LElement) : Bool :=
  match els.getLast? with
  | some LElement.step => true
  | _ => false

/-- The lines pushed by the editor variant's `generateLDraw`: header block,
the element lines, a final `0 STEP` unless the last element already is a step,
then a blank line. -/
def generateLines (b : EBuilder) : List (List Char) :=
  [("0 " ++ b.modelName).toList,
   "0 Name: generated.ldr".toList,
   ("0 Author: " ++ b.author).toList,
   "0 !LICENSE Licensed under CC BY 4.0".toList,
   [],
   "0 BFC CERTIFY CCW".toList,
   []]
  ++ b.elements.flatMap elemLines
  ++ (if endsInStep b.elements then [] else [LdrawBuilderTs.stepLine])
  ++ [[]]

def generateLDraw (b : EBuilder) : String :=
  String.mk (joinChar '\n' (generateLines b))

/-- The mutating calls a script can make on one editor builder (used to
quantify over every builder state reachable through the public API). -/
inductive BuilderOp
  | setModelName (name : String)
  | setAuthor (author : String)
  | setColor (code : Int)
  | addStep
  | addPart (partNum : String) (color : Int) (x y z : Int)
      (a b c d e f g h i : Int)
  | addBrick (partNum : String) (color : Int) (x y z : Int)
  | addPlate (partNum : String) (color : Int) (x y z : Int)
  | addWheel (partNum : String) (x y z : Int)
  | addPartRotatedY90 (partNum : String) (color : Int) (x y z : Int)
  | addPartRotatedX90 (partNum : String) (color : Int) (x y z : Int)
  | clear

def applyOp (b : EBuilder) : BuilderOp → EBuilder
  | BuilderOp.setModelName n => setModelName b n
  | BuilderOp.setAuthor a => setAuthor b a
  | BuilderOp.setColor c => setColor b c
  | BuilderOp.addStep => addStep b
  | BuilderOp.addPart pn col x y z a bb c d e f g h i =>
      addPart b pn col x y z a bb c d e f g h i
  | BuilderOp.addBrick pn col x y z => addBrick b pn col x y z
  | BuilderOp.addPlate pn col x y z => addPlate b pn col x y z
  | BuilderOp.addWheel pn x y z => addWheel b pn x y z
  | BuilderOp.addPartRotatedY90 pn col x y z => addPartRotatedY90 b pn col x y z
  | BuilderOp.addPartRotatedX90 pn col x y z => addPartRotatedX90 b pn col x y z
  | BuilderOp.clear => clear b

/-- Run a script's calls in order against a fresh builder. -/
def applyOps (ops : List BuilderOp) : EBuilder :=
  ops.foldl applyOp {}

end CodeEditorTs

/-! ### Text codec, parsing side — `ldrawToThree.ts` (`parseLDrawFile`) -/

namespace LdrawToThreeTs

/-- One parsed placement, fields exactly as `parseLDrawFile` builds them.
`Option Int` fields model JavaScript numbers that may be NaN when a token
fails to parse. -/
structure LDrawPart where
  color : Option Int
  px : Option Int
  py : Option Int
  pz : Option Int
  m1 : Option Int
  m2 : Option Int
  m3 : Option Int
  m4 : Option Int
  m5 : Option Int
  m6 : Option Int
  m7 : Option Int
  m8 : Option Int
  m9 : Option Int
  partName : String
deriving DecidableEq

/-- Token `i` of a line, the empty token when out of range (out-of-range
indexing cannot happen on lines that pass the length guard). -/
def tok (tokens : List (List Char)) (i : Nat) : List Char :=
  tokens.getD i []

/-- Processing of one line of `parseLDrawFile`: trim it; if the trimmed line
starts with `"1 "` and splits into at least 15 whitespace-separated tokens,
build the placement — negating the second coordinate (`// Invert Y for
Three.js`) — otherwise contribute nothing. -/
def parseLine (line : List Char) : Option LDrawPart :=
  let trimmed := trimChars line
  if isPrefixCh ['1', ' '] trimmed then
    let tokens := wordsChars trimmed
    if 15 ≤ tokens.length then
      some
        { color := parseIntChars (tok tokens 1),
          px := parseIntChars (tok tokens 2),
          py := (parseIntChars (tok tokens 3)).map (fun v => -v),
          pz := parseIntChars (tok tokens 4),
          m1 := parseIntChars (tok tokens 5),
          m2 := parseIntChars (tok tokens 6),
          m3 := parseIntChars (tok tokens 7),
          m4 := parseIntChars (tok tokens 8),
          m5 := parseIntChars (tok tokens 9),
          m6 := parseIntChars (tok tokens 10),
          m7 := parseIntChars (tok tokens 11),
          m8 := parseIntChars (tok tokens 12),
          m9 := parseIntChars (tok tokens 13),
          partName := String.mk (tok tokens 14) }
    else none
  else none

/-- `parseLDrawFile`: split the content on newlines and collect the placement
lines.  Total by construction — no input raises. -/
def parseLDrawFile (content : String) : List LDrawPart :=
  (splitOnChar '\n' content.toList).filterMap parseLine

/-- The parsed image of a builder part as the repository's parser actually
produces it: all fields carried over, the second coordinate negated. -/
def renderedOf (p : LdrawBuilderTs.PartPlacement) : LDrawPart :=
  { color := some p.color, px := some p.x, py := some (-p.y), pz := some p.z,
    m1 := some p.a, m2 := some p.b, m3 := some p.c,
    m4 := some p.d, m5 := some p.e, m6 := some p.f,
    m7 := some p.g, m8 := some p.h, m9 := some p.i,
    partName := p.partName }

/-- The parsed image the round-trip claim asks for, built from the claim's
words rather than from the parser: every field identical, including the
second coordinate. -/
def claimedOf (p : LdrawBuilderTs.PartPlacement) : LDrawPart :=
  { color := some p.color, px := some p.x, py := some p.y, pz := some p.z,
    m1 := some p.a, m2 := some p.b, m3 := some p.c,
    m4 := some p.d, m5 := some p.e, m6 := some p.f,
    m7 := some p.g, m8 := some p.h, m9 := some p.i,
    partName := p.partName }

end LdrawToThreeTs

/-! ### Sandboxed execution engine — `codeExecutor.ts` (`CodeExecutor`) -/

namespace CodeExecutorTs

/-- Single-quote character, kept out of string literals. -/
def sq : Char := Char.ofNat 39

/-- Backtick character. -/
def bt : Char := Char.ofNat 96

/-- The regex class `['"`]` used inside the validator's require pattern. -/
def isQuoteChar (c : Char) : Bool :=
  c == sq || c == '"' || c == bt

def requireChars : List Char := "require".toList

/-- If `cs` begins with `require` `\s*` `(` `\s*` quote body quote `\s*` `)`,
return the quoted body; this is one anchored match of the validator's pattern
`require\s*\(\s*['"`][^'"`]*['"`]\s*\)`. -/
def requireArgHere (cs : List Char) : Option (List Char) :=
  if isPrefixCh requireChars cs then
    match (cs.drop 7).dropWhile isWsChar with
    | '(' :: r2 =>
      match r2.dropWhile isWsChar with
      | q :: r3 =>
        if isQuoteChar q then
          let body := r3.takeWhile (fun c => !isQuoteChar c)
          match r3.dropWhile (fun c => !isQuoteChar c) with
          | _ :: r4 =>
            match r4.dropWhile isWsChar with
            | ')' :: _ => some body
            | _ => none
          | [] => none
        else none
      | [] => none
    | _ => none
  else none

/-- All bodies of require-pattern matches anywhere in the text. -/
def requireArgs : List Char → List (List Char)
  | [] => []
  | c :: cs =>
    (match requireArgHere (c :: cs) with
     | some b => [b]
     | none => []) ++ requireArgs cs

/-- `pattern.test(code)` for the require pattern. -/
def matchesRequireAnywhere (cs : List Char) : Bool :=
  !(requireArgs cs).isEmpty

/-- A require-pattern match whose module is not `./ldrawBuilder` — a
module-loading attempt that the allowlist exception does not cover. -/
def disallowedRequirePresent (cs : List Char) : Bool :=
  (requireArgs cs).any (fun b => b ≠ "./ldrawBuilder".toList)

/-- One anchored match of `name\s*\(` (the `eval`/`Function`/`exec`/`spawn`
patterns). -/
def callPatHere (name cs : List Char) : Bool :=
  isPrefixCh name cs &&
    match (cs.drop name.length).dropWhile isWsChar with
    | '(' :: _ => true
    | _ => false

def matchesCallAnywhere (name : List Char) : List Char → Bool
  | [] => false
  | c :: cs => callPatHere name (c :: cs) || matchesCallAnywhere name cs

/-- One anchored match of `import\s+`. -/
def importHere (cs : List Char) : Bool :=
  isPrefixCh "import".toList cs &&
    match cs.drop 6 with
    | c :: _ => isWsChar c
    | [] => false

def matchesImportAnywhere : List Char → Bool
  | [] => false
  | c :: cs => importHere (c :: cs) || matchesImportAnywhere cs

/-- The literal substring `require('./ldrawBuilder')`. -/
def allowedRequireSingle : List Char :=
  "require(".toList ++ [sq] ++ "./ldrawBuilder".toList ++ [sq] ++ [')']

/-- The literal substring `require("./ldrawBuilder")`. -/
def allowedRequireDouble : List Char :=
  "require(\"./ldrawBuilder\")".toList

/-- The allowlist test of `validateCode`: the code textually contains one of
the two permitted `./ldrawBuilder` require forms. -/
def allowedRequire (cs : List Char) : Bool :=
  containsSubChars allowedRequireSingle cs ||
    containsSubChars allowedRequireDouble cs

/-- Did any entry of the `dangerousPatterns` array match, taking the
source's `continue` for the allowlisted require forms into account?  The
source's loop returns `false` at the first match, which is observationally
the disjunction of the individual tests. -/
def dangerousHit (cs : List Char) : Bool :=
  containsSubChars "process.".toList cs
  || (matchesRequireAnywhere cs && !allowedRequire cs)
  || matchesImportAnywhere cs
  || matchesCallAnywhere "eval".toList cs
  || matchesCallAnywhere "Function".toList cs
  || matchesCallAnywhere "exec".toList cs
  || matchesCallAnywhere "spawn".toList cs
  || containsSubChars "__dirname".toList cs
  || containsSubChars "__filename".toList cs
  || containsSubChars "fs.".toList cs
  || containsSubChars "path.".toList cs

/-- `CodeExecutor.validateCode`: reject on a dangerous pattern, then require
that the code appears to use the builder API. -/
def validateCode (code : String) : Bool :=
  let cs := code.toList
  if dangerousHit cs then false
  else if !(containsSubChars "new LDrawBuilder".toList cs
      || containsSubChars "builder".toList cs) then false
  else true

/-- The options object `executeGeneratedCode` passes to `vm.Script` /
`runInContext`: the timeout is the fixed literal 5000, independent of any
caller-requested deadline (the method has no deadline parameter). -/
structure VmRunOptions where
  filename : String
  timeout : Nat
  displayErrors : Bool
deriving DecidableEq

def executorRunOptions : VmRunOptions :=
  { filename := "generated.js", timeout := 5000, displayErrors := true }

/-- Abstract wall-clock behavior of one script run: `millis = none` models a
script that never terminates (e.g. an infinite loop), `some t` a script that
finishes after `t` milliseconds.  The scripts themselves are runtime data,
not repository code; only the engines' treatment of them is modelled. -/
structure ScriptTiming where
  millis : Option Nat
deriving DecidableEq

inductive VmOutcome
  | finished
  | timedOut
deriving DecidableEq

/-- `vm.Script.runInContext` under a `timeout` option: the run is aborted
with a timeout error once the limit passes; otherwise it completes. -/
def runScriptWithTimeout (opts : VmRunOptions) (s : ScriptTiming) : VmOutcome :=
  match s.millis with
  | none => VmOutcome.timedOut
  | some t => if t ≤ opts.timeout then VmOutcome.finished else VmOutcome.timedOut

/-- The editor path (`new Function(...)` invoked directly, no timeout option
anywhere): the call returns only if the script terminates by itself; `none`
models the host blocked forever. -/
def runScriptNoTimeout (s : ScriptTiming) : Option Nat :=
  s.millis

/-- What one script run left behind, as the wrapper code appended by
`executeGeneratedCode` observes it: whether a top-level `builder` binding
with a `save` method exists, the document that builder would save, and the
script's own final value when that value is a string. -/
structure ScriptResultState where
  returnedDoc : Option String
  hasBuilderWithSave : Bool
  builderDoc : String
deriving DecidableEq

inductive NodeExecOutcome
  | saved (doc : String) (filename : String)
  | failed (msg : String)
deriving DecidableEq

/-- Result extraction of `executeGeneratedCode`: the wrapper calls
`builder.save(...)` itself when a `builder` binding exists and reports the
`.ldr` filename; otherwise it throws `No builder instance found or save
method not called`.  The script's returned string plays no role. -/
def executeGeneratedCodeResult (modelName : String)
    (r : ScriptResultState) : NodeExecOutcome :=
  if r.hasBuilderWithSave then
    NodeExecOutcome.saved r.builderDoc (modelName ++ ".ldr")
  else
    NodeExecOutcome.failed "No builder instance found or save method not called"

end CodeExecutorTs

/-! ### Build endpoint — `server.ts` `POST /api/build` -/

namespace ServerTs

/-- Outcome of the build handler for an already-generated code string:
whether the script was handed to the executor at all, and the error surfaced
when validation fails. -/
structure BuildOutcome where
  executed : Bool
  errorMsg : Option String
deriving DecidableEq

/-- The validation/execution portion of the `POST /api/build` handler: a code
string that fails `validateCode` makes the handler throw before
`executeGeneratedCode` is ever reached. -/
def handleBuild (generatedCode : String) : BuildOutcome :=
  if CodeExecutorTs.validateCode generatedCode then
    { executed := true, errorMsg := none }
  else
    { executed := false, errorMsg := some "Generated code failed validation" }

end ServerTs

/-! ### Editor execution result handling — `LDrawCodeEditor.tsx` `executeCode` -/

namespace CodeEditorTs

/-- One `onModelGenerated(content, filename, isPreview)` callback emitted to
the page. -/
structure GeneratedEvent where
  content : String
  filename : String
  isPreview : Bool
deriving DecidableEq

/-- What one editor script run did: the script's final value when it is a
string, and the `builder.save(filename?)` calls it made, each carrying the
builder's document at the moment of the call. -/
structure EditorRun where
  returned : Option String
  saveCalls : List (String × Option String)
deriving DecidableEq

/-- JavaScript `a || b` for an optional string against a fallback (empty
strings are falsy). -/
def jsOrElse (a : Option String) (b : String) : String :=
  match a with
  | some s => if s = "" then b else s
  | none => b

/-- The event emitted by the builder's `save` method: preview runs are routed
to `preview_temp`; manual runs resolve `saveFilename || filename ||
'generated_model'`. -/
def saveEvent (isLivePreview : Bool) (fieldFilename : String)
    (call : String × Option String) : GeneratedEvent :=
  if isLivePreview then
    { content := call.1, filename := "preview_temp", isPreview := true }
  else
    { content := call.1,
      filename := jsOrElse call.2 (jsOrElse (some fieldFilename) "generated_model"),
      isPreview := false }

/-- The `onModelGenerated` callbacks of one `executeCode(isLivePreview)` run:
every `save` call fires during execution, then the returned value is emitted
only when it is a string.  A run with neither signal emits nothing, and no
branch of the source raises a no-output error. -/
def resultEvents (isLivePreview : Bool) (fieldFilename : String)
    (run : EditorRun) : List GeneratedEvent :=
  run.saveCalls.map (saveEvent isLivePreview fieldFilename) ++
    match run.returned with
    | some s =>
      if isLivePreview then
        [{ content := s, filename := "preview_temp", isPreview := true }]
      else
        [{ content := s,
           filename := jsOrElse (some (String.mk (trimChars fieldFilename.toList)))
             "generated_model",
           isPreview := false }]
    | none => []

end CodeEditorTs

/-! ### Load coordination — `LDRViewer.tsx` model-loading effect -/

namespace LdrViewer

/-- The two flags of one issued load: whether its effect cleanup ran
(`cancelled` closure variable) and whether its promise already settled. -/
structure RunInfo where
  cancelled : Bool
  completed : Bool
deriving DecidableEq

/-- The viewer's mutable refs, plus bookkeeping for issued loads.  `runs` has
one entry per load ever started, indexed by issue order; `cleanupTarget` is
the run whose cleanup function React will call on the next dependency change
(none when the last effect body returned early and registered no cleanup). -/
structure ViewerState where
  modelGroup : Option Nat := none
  scene : List Nat := []
  disposed : List Nat := []
  isLoading : Bool := false
  currentPath : String := ""
  runs : List RunInfo := []
  cleanupTarget : Option Nat := none
deriving DecidableEq

/-- Set the `cancelled` flag of run `r`. -/
def setCancelled (runs : List RunInfo) (r : Nat) : List RunInfo :=
  runs.modify (fun info => { info with cancelled := true }) r

/-- Set the `completed` flag of run `r`. -/
def setCompleted (runs : List RunInfo) (r : Nat) : List RunInfo :=
  runs.modify (fun info => { info with completed := true }) r

/-- React calls the cleanup function registered by the previous effect body
before running the next one; the cleanup sets that run's `cancelled` closure
flag and nothing else. -/
def cancelTarget (s : ViewerState) : ViewerState :=
  match s.cleanupTarget with
  | none => s
  | some r => { s with runs := setCancelled s.runs r, cleanupTarget := none }

/-- The model-loading effect body for identifier `id`, after the guards that
need the refs to exist.  The three early returns mirror the source: same
identifier already loading, same identifier already loaded, any other load in
flight.  Passing them removes the currently displayed model from the scene
and schedules its disposal (the `setTimeout(…, 0)` body, which nothing
cancels, modelled as performed), then starts a fresh load and registers its
cleanup. -/
def effectBody (id : String) (s : ViewerState) : ViewerState :=
  if s.currentPath = id ∧ s.isLoading then s
  else if s.currentPath = id ∧ s.modelGroup.isSome then s
  else if s.isLoading then s
  else
    let s1 :=
      match s.modelGroup with
      | some m =>
        { s with
          modelGroup := none
          scene := s.scene.erase m
          disposed := s.disposed ++ [m] }
      | none => s
    { s1 with
      isLoading := true
      currentPath := id
      runs := s1.runs ++ [{ cancelled := false, completed := false }]
      cleanupTarget := some s1.runs.length }

/-- A new load request: React first runs the pending cleanup, then the new
effect body. -/
def requestLoad (id : String) (s : ViewerState) : ViewerState :=
  effectBody id (cancelTarget s)

/-- Run `r`'s load promise resolves with model group `g`: the handler first
checks the `cancelled` closure flag and returns before touching anything —
including before clearing `isLoadingRef` — when it is set; otherwise it
clears the loading flag, stores the group and adds it to the scene. -/
def completeSuccess (r : Nat) (g : Nat) (s : ViewerState) : ViewerState :=
  match s.runs.get? r with
  | none => s
  | some info =>
    if info.completed then s
    else if info.cancelled then { s with runs := setCompleted s.runs r }
    else
      { s with
        runs := setCompleted s.runs r
        isLoading := false
        modelGroup := some g
        scene := s.scene ++ [g] }

/-- Run `r`'s load promise rejects: the catch handler returns early when
cancelled, and otherwise only logs the error and clears the loading flag —
it removes nothing, restores nothing, and surfaces nothing to the page. -/
def completeFailure (r : Nat) (s : ViewerState) : ViewerState :=
  match s.runs.get? r with
  | none => s
  | some info =>
    if info.completed then s
    else if info.cancelled then { s with runs := setCompleted s.runs r }
    else { s with runs := setCompleted s.runs r, isLoading := false }

/-- Externally visible happenings, in wall-clock order: prop changes and
out-of-order I/O completions. -/
inductive Event
  | request (id : String)
  | succeed (r : Nat) (g : Nat)
  | fail (r : Nat)

def stepEvent (s : ViewerState) : Event → ViewerState
  | Event.request id => requestLoad id s
  | Event.succeed r g => completeSuccess r g s
  | Event.fail r => completeFailure r s

/-- The state after a sequence of events, from the initial mount. -/
def runTrace (events : List Event) : ViewerState :=
  events.foldl stepEvent {}

end LdrViewer

/-! ### Observation functions for the trailing-step property -/

/-- Is a serialized line part of the trailing step/blank region? -/
def isStepOrBlank (l : List Char) : Bool :=
  l == LdrawBuilderTs.stepLine || l == ([] : List Char)

/-- The maximal suffix of the emitted lines consisting of step directives and
blank lines (returned reversed). -/
def stepTail (lines : List (List Char)) : List (List Char) :=
  lines.reverse.takeWhile isStepOrBlank

/-- How many step directives end the document. -/
def trailingStepCount (lines : List (List Char)) : Nat :=
  (stepTail lines |>.filter (fun l => l == LdrawBuilderTs.stepLine)).length

/-- The last non-blank emitted line. -/
def lastNonBlank (lines : List (List Char)) : Option (List Char) :=
  (lines.reverse.dropWhile (fun l => l == ([] : List Char))).head?

/-- Both of the last two elements are step markers (the only way the
serializer could emit two trailing step directives). -/
def lastTwoSteps (els : List CodeEditorTs.LElement) : Bool :=
  match els.dropLast.getLast?, els.getLast? with
  | some CodeEditorTs.LElement.step, some CodeEditorTs.LElement.step => true
  | _, _ => false

/-! ### General list lemmas -/

theorem takeWhile_all_true {α} (p : α → Bool) :
    ∀ l : List α, (∀ a ∈ l, p a = true) → l.takeWhile p = l := by
  intro l
  induction l with
  | nil => intro _; rfl
  | cons a as ih =>
    intro h
    have ha : p a = true := h a (by simp)
    simp [List.takeWhile_cons, ha, ih (fun b hb => h b (by simp [hb]))]

theorem takeWhile_append_stop {α} (p : α → Bool) (x : α) (bs : List α)
    (hx : p x = false) :
    ∀ as : List α, (∀ a ∈ as, p a = true) →
    ((as ++ x :: bs).takeWhile p) = as := by
  intro as
  induction as with
  | nil => intro _; simp [List.takeWhile_cons, hx]
  | cons a as' ih =>
    intro h
    have ha : p a = true := h a (by simp)
    simp [List.takeWhile_cons, ha, ih (fun b hb => h b (by simp [hb]))]

theorem dropWhile_append_stop {α} (p : α → Bool) (x : α) (bs : List α)
    (hx : p x = false) :
    ∀ as : List α, (∀ a ∈ as, p a = true) →
    ((as ++ x :: bs).dropWhile p) = x :: bs := by
  intro as
  induction as with
  | nil => intro _; simp [List.dropWhile_cons, hx]
  | cons a as' ih =>
    intro h
    have ha : p a = true := h a (by simp)
    simp [List.dropWhile_cons, ha, ih (fun b hb => h b (by simp [hb]))]

theorem dropWhile_concat_stop {α} (p : α → Bool) (x : α) (hx : p x = false) :
    ∀ as : List α, ((as ++ [x]).dropWhile p) = as.dropWhile p ++ [x] := by
  intro as
  induction as with
  | nil => simp [List.dropWhile_cons, hx]
  | cons a as' ih =>
    cases hpa : p a with
    | true => simpa [List.dropWhile_cons, hpa] using ih
    | false => simp [List.dropWhile_cons, hpa]

theorem dropWhile_append_left {α} (p : α → Bool) (bs : List α) :
    ∀ as : List α, as.dropWhile p ≠ [] →
    ((as ++ bs).dropWhile p) = as.dropWhile p ++ bs := by
  intro as
  induction as with
  | nil => intro h; simp at h
  | cons a as' ih =>
    intro h
    cases hpa : p a with
    | true =>
      simp only [List.dropWhile_cons, hpa, if_true] at h
      simp only [List.cons_append, List.dropWhile_cons, hpa, if_true]
      exact ih h
    | false => simp [List.dropWhile_cons, hpa]

theorem splitOnChar_no_sep (sep : Char) :
    ∀ l : List Char, (∀ c ∈ l, (c == sep) = false) → splitOnChar sep l = [l] := by
  intro l
  induction l with
  | nil => intro _; rfl
  | cons c cs ih =>
    intro h
    have hc : (c == sep) = false := h c (by simp)
    simp only [splitOnChar, hc, Bool.false_eq_true, if_false]
    rw [ih (fun b hb => h b (by simp [hb]))]

theorem splitOnChar_cons_sep (sep : Char) (rest : List Char) :
    ∀ l : List Char, (∀ c ∈ l, (c == sep) = false) →
    splitOnChar sep (l ++ sep :: rest) = l :: splitOnChar sep rest := by
  intro l
  induction l with
  | nil =>
    intro _
    simp [splitOnChar]
  | cons c cs ih =>
    intro h
    have hc : (c == sep) = false := h c (by simp)
    simp only [List.cons_append, splitOnChar, hc, Bool.false_eq_true, if_false,
      List.append_eq]
    rw [ih (fun b hb => h b (by simp [hb]))]

theorem splitOnChar_join (sep : Char) :
    ∀ ls : List (List Char), ls ≠ [] → (∀ l ∈ ls, ∀ c ∈ l, (c == sep) = false) →
    splitOnChar sep (joinChar sep ls) = ls := by
  intro ls
  induction ls with
  | nil => intro h; exact absurd rfl h
  | cons l ls' ih =>
    intro _ h
    cases ls' with
    | nil => exact splitOnChar_no_sep sep l (h l (by simp))
    | cons l2 ls'' =>
      show splitOnChar sep (l ++ sep :: joinChar sep (l2 :: ls'')) = _
      rw [splitOnChar_cons_sep sep _ l (h l (by simp)),
        ih (by simp) (fun m hm => h m (by simp [hm]))]

theorem dropWhile_all_true {α} (p : α → Bool) :
    ∀ l : List α, (∀ a ∈ l, p a = true) → l.dropWhile p = [] := by
  intro l
  induction l with
  | nil => intro _; rfl
  | cons a as ih =>
    intro h
    rw [List.dropWhile_cons, if_pos (h a (by simp))]
    exact ih (fun b hb => h b (by simp [hb]))

theorem wordsChars_nil : wordsChars [] = [] := rfl

theorem wordsChars_cons_ws (c : Char) (cs : List Char) (hc : isWsChar c = true) :
    wordsChars (c :: cs) = wordsChars cs := by
  show wordsAux [] (c :: cs) = wordsAux [] cs
  simp only [wordsAux, hc, if_true]
  simp

theorem wordsAux_run (R : List Char) :
    ∀ w : List Char, (∀ c ∈ w, isWsChar c = false) →
    ∀ cur : List Char, wordsAux cur (w ++ R) = wordsAux (w.reverse ++ cur) R := by
  intro w
  induction w with
  | nil => intro _ cur; simp
  | cons c w' ih =>
    intro h cur
    rw [List.cons_append]
    show wordsAux cur (c :: (w' ++ R)) = wordsAux ((c :: w').reverse ++ cur) R
    simp only [wordsAux, h c (by simp), Bool.false_eq_true, if_false]
    rw [ih (fun d hd => h d (by simp [hd])) (c :: cur)]
    congr 1
    simp

theorem wordsChars_single :
    ∀ w : List Char, w ≠ [] → (∀ c ∈ w, isWsChar c = false) →
    wordsChars w = [w] := by
  intro w hw h
  unfold wordsChars
  have h0 : w = w ++ [] := by simp
  rw [h0, wordsAux_run [] w h []]
  simp only [wordsAux]
  simp [hw]

theorem wordsChars_cons_word (rest : List Char) :
    ∀ w : List Char, w ≠ [] → (∀ c ∈ w, isWsChar c = false) →
    wordsChars (w ++ ' ' :: rest) = w :: wordsChars rest := by
  intro w hw h
  unfold wordsChars
  rw [wordsAux_run (' ' :: rest) w h []]
  simp only [wordsAux, show isWsChar ' ' = true from rfl, if_true]
  simp [hw]

theorem wordsChars_join :
    ∀ toks : List (List Char),
    (∀ t ∈ toks, t ≠ [] ∧ ∀ c ∈ t, isWsChar c = false) →
    wordsChars (joinChar ' ' toks) = toks := by
  intro toks
  induction toks with
  | nil => intro _; rfl
  | cons t ts ih =>
    intro h
    cases ts with
    | nil =>
      show wordsChars t = [t]
      exact wordsChars_single t (h t (by simp)).1 (h t (by simp)).2
    | cons t2 ts' =>
      show wordsChars (t ++ ' ' :: joinChar ' ' (t2 :: ts')) = _
      rw [wordsChars_cons_word _ t (h t (by simp)).1 (h t (by simp)).2,
        ih (fun m hm => h m (by simp [hm]))]

/-! ### Digit and integer codec lemmas -/

theorem digitCh_is_digit (d : Nat) : isDigitChar (digitCh d) = true := by
  unfold digitCh
  repeat' split
  all_goals decide

theorem digitCh_not_ws (d : Nat) : isWsChar (digitCh d) = false := by
  unfold digitCh
  repeat' split
  all_goals decide

theorem digitCh_val (d : Nat) (hd : d < 10) : digitVal (digitCh d) = d := by
  interval_cases d <;> decide

theorem digit_not_ws (c : Char) (h : isDigitChar c = true) : isWsChar c = false := by
  unfold isDigitChar at h
  simp only [Bool.and_eq_true, decide_eq_true_eq] at h
  unfold isWsChar
  simp only [Bool.or_eq_false_iff, beq_eq_false_iff_ne, ne_eq]
  refine ⟨⟨⟨?_, ?_⟩, ?_⟩, ?_⟩ <;> (intro hc; subst hc; exact absurd h (by decide))

theorem digit_ne_newline (c : Char) (h : isDigitChar c = true) : (c == '\n') = false := by
  have := digit_not_ws c h
  unfold isWsChar at this
  simp only [Bool.or_eq_false_iff] at this
  exact this.1.2

theorem digitsVal_concat (ds : List Char) (c : Char) :
    digitsVal (ds ++ [c]) = 10 * digitsVal ds + digitVal c := by
  simp [digitsVal, List.foldl_append]

theorem natToCharsFuel_ne_nil :
    ∀ (fuel n : Nat), n < fuel → natToCharsFuel fuel n ≠ [] := by
  intro fuel
  induction fuel with
  | zero => intro n hn; omega
  | succ fuel ih =>
    intro n _
    unfold natToCharsFuel
    split <;> simp

theorem natToChars_ne_nil (n : Nat) : natToChars n ≠ [] :=
  natToCharsFuel_ne_nil (n + 1) n (by omega)

theorem natToCharsFuel_all_digits :
    ∀ (fuel n : Nat), n < fuel → ∀ c ∈ natToCharsFuel fuel n, isDigitChar c = true := by
  intro fuel
  induction fuel with
  | zero => intro n hn; omega
  | succ fuel ih =>
    intro n hn
    unfold natToCharsFuel
    split
    · intro c hc
      simp only [List.mem_singleton] at hc
      subst hc
      exact digitCh_is_digit n
    · next h10 =>
      intro c hc
      rw [List.mem_append] at hc
      rcases hc with h | h
      · have hdiv : n / 10 < fuel := by
          have h2 := Nat.div_lt_self (show 0 < n by omega) (show (1 : Nat) < 10 by omega)
          omega
        exact ih (n / 10) hdiv c h
      · simp only [List.mem_singleton] at h
        subst h
        exact digitCh_is_digit (n % 10)

theorem natToChars_all_digits (n : Nat) : ∀ c ∈ natToChars n, isDigitChar c = true :=
  natToCharsFuel_all_digits (n + 1) n (by omega)

theorem natToCharsFuel_val :
    ∀ (fuel n : Nat), n < fuel → digitsVal (natToCharsFuel fuel n) = n := by
  intro fuel
  induction fuel with
  | zero => intro n hn; omega
  | succ fuel ih =>
    intro n hn
    unfold natToCharsFuel
    split
    · simp only [digitsVal, List.foldl_cons, List.foldl_nil, Nat.mul_zero, Nat.zero_add]
      exact digitCh_val n (by omega)
    · next h10 =>
      have hdiv : n / 10 < fuel := by
        have h2 := Nat.div_lt_self (show 0 < n by omega) (show (1 : Nat) < 10 by omega)
        omega
      rw [digitsVal_concat, ih (n / 10) hdiv,
        digitCh_val (n % 10) (Nat.mod_lt n (by omega))]
      omega

theorem natToChars_val (n : Nat) : digitsVal (natToChars n) = n :=
  natToCharsFuel_val (n + 1) n (by omega)

theorem parseIntChars_natToChars (n : Nat) :
    parseIntChars (natToChars n) = some (n : Int) := by
  obtain ⟨c, rest, hcr⟩ : ∃ c rest, natToChars n = c :: rest := by
    cases h : natToChars n with
    | nil => exact absurd h (natToChars_ne_nil n)
    | cons c rest => exact ⟨c, rest, rfl⟩
  have hdig : ∀ d ∈ c :: rest, isDigitChar d = true := by
    rw [← hcr]; exact natToChars_all_digits n
  have hc : (c == '-') = false := by
    have h48 : isDigitChar c = true := hdig c (by simp)
    unfold isDigitChar at h48
    simp only [Bool.and_eq_true, decide_eq_true_eq] at h48
    simp only [beq_eq_false_iff_ne, ne_eq]
    intro hcm
    subst hcm
    exact absurd h48 (by decide)
  rw [hcr, parseIntChars]
  simp only [hc, Bool.false_eq_true, if_false]
  rw [takeWhile_all_true _ (c :: rest) hdig]
  simp only [List.isEmpty_cons, ite_false, Bool.false_eq_true, if_false]
  rw [← hcr, natToChars_val n]

theorem parseIntChars_intToChars (n : Int) :
    parseIntChars (intToChars n) = some n := by
  unfold intToChars
  split
  · next hneg =>
    rw [parseIntChars]
    simp only [beq_self_eq_true, if_true]
    have hdig := natToChars_all_digits (-n).toNat
    rw [takeWhile_all_true _ _ hdig]
    have hne := natToChars_ne_nil (-n).toNat
    simp only [List.isEmpty_eq_true, hne, if_false]
    rw [natToChars_val]
    congr 1
    omega
  · next hpos =>
    rw [parseIntChars_natToChars]
    congr 1
    omega

theorem intToChars_ne_nil (n : Int) : intToChars n ≠ [] := by
  unfold intToChars
  split
  · simp
  · exact natToChars_ne_nil _

theorem intToChars_not_ws (n : Int) : ∀ c ∈ intToChars n, isWsChar c = false := by
  unfold intToChars
  split
  · intro c hc
    rcases List.mem_cons.mp hc with h | h
    · subst h; decide
    · exact digit_not_ws c (natToChars_all_digits _ c h)
  · intro c hc
    exact digit_not_ws c (natToChars_all_digits _ c hc)

/-! ### Trim lemmas -/

theorem dropTrailing_concat (p : Char → Bool) (l : List Char) (x : Char)
    (hx : p x = false) : dropTrailing p (l ++ [x]) = l ++ [x] := by
  unfold dropTrailing
  rw [List.reverse_append]
  simp only [List.reverse_cons, List.reverse_nil, List.nil_append, List.singleton_append,
    List.dropWhile_cons, hx, Bool.false_eq_true, if_false]
  simp

theorem trimChars_of_ends (c : Char) (mid : List Char) (x : Char)
    (hc : isWsChar c = false) (hx : isWsChar x = false) :
    trimChars (c :: mid ++ [x]) = c :: mid ++ [x] := by
  unfold trimChars
  rw [List.cons_append, List.dropWhile_cons, if_neg (by simp [hc]),
    ← List.cons_append, dropTrailing_concat _ _ _ hx]

theorem trimChars_cons (c : Char) (rest : List Char) (hc : isWsChar c = false) :
    trimChars (c :: rest) = c :: dropTrailing isWsChar rest := by
  unfold trimChars
  rw [List.dropWhile_cons, if_neg (by simp [hc])]
  unfold dropTrailing
  rw [List.reverse_cons, dropWhile_concat_stop _ c hc]
  simp

/-! ### Join lemmas -/

theorem joinChar_cons (sep : Char) (l : List Char) (l2 : List Char)
    (ls : List (List Char)) :
    joinChar sep (l :: l2 :: ls) = l ++ sep :: joinChar sep (l2 :: ls) := rfl

theorem mem_joinChar (sep : Char) :
    ∀ (ls : List (List Char)) (c : Char), c ∈ joinChar sep ls →
    c = sep ∨ ∃ l ∈ ls, c ∈ l := by
  intro ls
  induction ls with
  | nil => intro c hc; simp [joinChar] at hc
  | cons l ls' ih =>
    intro c hc
    cases ls' with
    | nil => exact Or.inr ⟨l, by simp, hc⟩
    | cons l2 ls'' =>
      rw [joinChar_cons] at hc
      rcases List.mem_append.mp hc with h | h
      · exact Or.inr ⟨l, by simp, h⟩
      · rcases List.mem_cons.mp h with h | h
        · exact Or.inl h
        · rcases ih c h with h | ⟨m, hm, hcm⟩
          · exact Or.inl h
          · exact Or.inr ⟨m, by simp [hm], hcm⟩

theorem stringMk_toList (s : String) : String.mk s.toList = s := rfl

theorem toList_stringMk (cs : List Char) : (String.mk cs).toList = cs := rfl

theorem not_ws_ne_newline (c : Char) (h : isWsChar c = false) : (c == '\n') = false := by
  unfold isWsChar at h
  simp only [Bool.or_eq_false_iff] at h
  exact h.1.2

theorem joinChar_concat (sep : Char) (t : List Char) :
    ∀ ts : List (List Char), ts ≠ [] →
    joinChar sep (ts ++ [t]) = joinChar sep ts ++ sep :: t := by
  intro ts
  induction ts with
  | nil => intro h; exact absurd rfl h
  | cons t' ts' ih =>
    intro _
    cases ts' with
    | nil => rfl
    | cons t2 ts'' =>
      have hX : (t' :: t2 :: ts'') ++ [t] = t' :: t2 :: (ts'' ++ [t]) := by simp
      rw [hX, joinChar_cons]
      have hY : t2 :: (ts'' ++ [t]) = (t2 :: ts'') ++ [t] := by simp
      rw [hY, ih (by simp), joinChar_cons]
      simp

theorem parseLine_nil : LdrawToThreeTs.parseLine [] = none := rfl

theorem parseLine_not_one (c : Char) (rest : List Char) (hc : isWsChar c = false)
    (h1 : c ≠ '1') : LdrawToThreeTs.parseLine (c :: rest) = none := by
  unfold LdrawToThreeTs.parseLine
  rw [trimChars_cons c rest hc]
  have hpre : isPrefixCh ['1', ' '] (c :: dropTrailing isWsChar rest) = false := by
    simp only [isPrefixCh, Bool.and_eq_false_iff]
    left
    simp only [beq_eq_false_iff_ne, ne_eq]
    exact fun h => h1 h.symm
  simp [hpre]

/-- The placement line of a part whose reference contains no whitespace
parses back to exactly the placement the repository's parser produces for it
(all fields identical except the negated second coordinate). -/
theorem parseLine_partLine (p : LdrawBuilderTs.PartPlacement)
    (hne : p.partName.toList ≠ [])
    (hnw : ∀ c ∈ p.partName.toList, isWsChar c = false) :
    LdrawToThreeTs.parseLine (LdrawBuilderTs.partLine p) =
      some (LdrawToThreeTs.renderedOf p) := by
  obtain ⟨q, a, hq⟩ := (List.eq_nil_or_concat p.partName.toList).resolve_left hne
  have ha : isWsChar a = false := hnw a (by rw [hq]; simp)
  have htoks : ∀ t ∈ LdrawBuilderTs.partTokens p,
      t ≠ [] ∧ ∀ c ∈ t, isWsChar c = false := by
    intro t ht
    simp only [LdrawBuilderTs.partTokens, List.mem_cons,
      List.not_mem_nil, or_false] at ht
    rcases ht with rfl | rfl | rfl | rfl | rfl | rfl | rfl | rfl | rfl | rfl |
      rfl | rfl | rfl | rfl | rfl
    · exact ⟨by simp, by intro c hc; simp at hc; subst hc; decide⟩
    all_goals first
      | exact ⟨intToChars_ne_nil _, intToChars_not_ws _⟩
      | exact ⟨hne, hnw⟩
  have hwords : wordsChars (LdrawBuilderTs.partLine p) = LdrawBuilderTs.partTokens p :=
    wordsChars_join _ htoks
  have hshape : LdrawBuilderTs.partLine p =
      '1' :: ' ' :: joinChar ' '
        [intToChars p.color, intToChars p.x, intToChars p.y, intToChars p.z,
         intToChars p.a, intToChars p.b, intToChars p.c,
         intToChars p.d, intToChars p.e, intToChars p.f,
         intToChars p.g, intToChars p.h, intToChars p.i,
         p.partName.toList] := rfl
  have hmid : joinChar ' '
        [intToChars p.color, intToChars p.x, intToChars p.y, intToChars p.z,
         intToChars p.a, intToChars p.b, intToChars p.c,
         intToChars p.d, intToChars p.e, intToChars p.f,
         intToChars p.g, intToChars p.h, intToChars p.i,
         p.partName.toList]
      = (joinChar ' '
          [intToChars p.color, intToChars p.x, intToChars p.y, intToChars p.z,
           intToChars p.a, intToChars p.b, intToChars p.c,
           intToChars p.d, intToChars p.e, intToChars p.f,
           intToChars p.g, intToChars p.h, intToChars p.i] ++ ' ' :: q) ++ [a] := by
    have hsplit :
        [intToChars p.color, intToChars p.x, intToChars p.y, intToChars p.z,
         intToChars p.a, intToChars p.b, intToChars p.c,
         intToChars p.d, intToChars p.e, intToChars p.f,
         intToChars p.g, intToChars p.h, intToChars p.i,
         p.partName.toList]
        = [intToChars p.color, intToChars p.x, intToChars p.y, intToChars p.z,
           intToChars p.a, intToChars p.b, intToChars p.c,
           intToChars p.d, intToChars p.e, intToChars p.f,
           intToChars p.g, intToChars p.h, intToChars p.i] ++ [p.partName.toList] := rfl
    rw [hsplit, joinChar_concat _ _ _ (by simp), hq]
    simp
  have htrim : trimChars (LdrawBuilderTs.partLine p) = LdrawBuilderTs.partLine p := by
    rw [hshape, trimChars_cons '1' _ (by decide)]
    congr 1
    rw [hmid]
    have hform : ' ' :: ((joinChar ' '
          [intToChars p.color, intToChars p.x, intToChars p.y, intToChars p.z,
           intToChars p.a, intToChars p.b, intToChars p.c,
           intToChars p.d, intToChars p.e, intToChars p.f,
           intToChars p.g, intToChars p.h, intToChars p.i] ++ ' ' :: q) ++ [a])
        = (' ' :: (joinChar ' '
          [intToChars p.color, intToChars p.x, intToChars p.y, intToChars p.z,
           intToChars p.a, intToChars p.b, intToChars p.c,
           intToChars p.d, intToChars p.e, intToChars p.f,
           intToChars p.g, intToChars p.h, intToChars p.i] ++ ' ' :: q)) ++ [a] := rfl
    rw [hform, dropTrailing_concat _ _ a ha]
  have hpre : isPrefixCh ['1', ' '] (LdrawBuilderTs.partLine p) = true := by
    rw [hshape]
    simp [isPrefixCh]
  unfold LdrawToThreeTs.parseLine
  rw [htrim]
  simp only [hpre, if_true, hwords, LdrawBuilderTs.partTokens, List.length_cons,
    List.length_nil, LdrawToThreeTs.tok, List.getD, List.getElem?_cons_zero,
    List.getElem?_cons_succ, Option.getD_some, parseIntChars_intToChars,
    LdrawToThreeTs.renderedOf]
  norm_num
  simp [parseIntChars_intToChars]

theorem toList_append (a b : String) : (a ++ b).toList = a.toList ++ b.toList := rfl

theorem partLine_no_newline (p : LdrawBuilderTs.PartPlacement)
    (hnw : ∀ c ∈ p.partName.toList, isWsChar c = false) :
    ∀ c ∈ LdrawBuilderTs.partLine p, (c == '\n') = false := by
  intro c hc
  rcases mem_joinChar ' ' (LdrawBuilderTs.partTokens p) c hc with h | ⟨t, ht, hct⟩
  · subst h; decide
  · simp only [LdrawBuilderTs.partTokens, List.mem_cons,
      List.not_mem_nil, or_false] at ht
    rcases ht with rfl | rfl | rfl | rfl | rfl | rfl | rfl | rfl | rfl | rfl |
      rfl | rfl | rfl | rfl | rfl
    · simp only [List.mem_singleton] at hct; subst hct; decide
    all_goals first
      | exact not_ws_ne_newline c (intToChars_not_ws _ c hct)
      | exact not_ws_ne_newline c (hnw c hct)

/-- **C1.**  What `Parse(Serialize(m))` actually yields: the ordered placement
list with colorCode, the first and third coordinates, the nine orientation
entries and the partReference carried over field-for-field, but with the
second coordinate *negated*, because the repository's only parser
(`parseLDrawFile`) applies the rendering-side Y-sign flip itself (`// Invert Y
for Three.js`) — the flip **is** baked into the parsed representation.
Hypotheses: the model's metadata contain no newline and each part reference is
non-empty without whitespace (all satisfied by every model built purely from
`addPart` calls with ordinary part numbers). -/
theorem c1_roundtrip_parse_negates_y (b : LdrawBuilderTs.LDrawBuilder)
    (hname : ∀ c ∈ b.modelName.toList, (c == '\n') = false)
    (hauthor : ∀ c ∈ b.author.toList, (c == '\n') = false)
    (hparts : ∀ p ∈ b.parts, p.partName.toList ≠ [] ∧
      ∀ c ∈ p.partName.toList, isWsChar c = false) :
    LdrawToThreeTs.parseLDrawFile (LdrawBuilderTs.generateLDraw b)
      = b.parts.map LdrawToThreeTs.renderedOf := by
  unfold LdrawToThreeTs.parseLDrawFile LdrawBuilderTs.generateLDraw
  rw [toList_stringMk]
  rw [splitOnChar_join '\n' (LdrawBuilderTs.generateLines b) (by
      unfold LdrawBuilderTs.generateLines; simp)
    (by
      intro l hl c hc
      unfold LdrawBuilderTs.generateLines at hl
      simp only [List.mem_append, List.mem_cons, List.not_mem_nil, or_false,
        List.mem_map] at hl
      rcases hl with ((rfl | rfl | rfl | rfl | rfl | rfl | rfl) | ⟨p, hp, rfl⟩) | (rfl | rfl)
      · rw [toList_append] at hc
        rcases List.mem_append.mp hc with h | h
        · exact (by decide : ∀ x ∈ "0 ".toList, (x == '\n') = false) c h
        · exact hname c h
      · exact (by decide : ∀ x ∈ "0 Name: model.ldr".toList, (x == '\n') = false) c hc
      · rw [toList_append] at hc
        rcases List.mem_append.mp hc with h | h
        · exact (by decide : ∀ x ∈ "0 Author: ".toList, (x == '\n') = false) c h
        · exact hauthor c h
      · exact (by decide :
          ∀ x ∈ "0 !LICENSE Licensed under CC BY 4.0".toList, (x == '\n') = false) c hc
      · simp at hc
      · exact (by decide : ∀ x ∈ "0 BFC CERTIFY CCW".toList, (x == '\n') = false) c hc
      · simp at hc
      · exact partLine_no_newline p (hparts p hp).2 c hc
      · exact (by decide :
          ∀ x ∈ LdrawBuilderTs.stepLine, (x == '\n') = false) c hc
      · simp at hc)]
  unfold LdrawBuilderTs.generateLines
  rw [List.filterMap_append, List.filterMap_append]
  have hheaders :
      (List.filterMap LdrawToThreeTs.parseLine
        [("0 " ++ b.modelName).toList, "0 Name: model.ldr".toList,
         ("0 Author: " ++ b.author).toList,
         "0 !LICENSE Licensed under CC BY 4.0".toList, [],
         "0 BFC CERTIFY CCW".toList, []]) = [] := by
    simp only [List.filterMap_cons]
    rw [show ("0 " ++ b.modelName).toList = '0' :: (" " ++ b.modelName).toList from rfl,
      parseLine_not_one '0' _ (by decide) (by decide),
      (by decide : LdrawToThreeTs.parseLine "0 Name: model.ldr".toList = none),
      show ("0 Author: " ++ b.author).toList
        = '0' :: (" Author: " ++ b.author).toList from rfl,
      parseLine_not_one '0' _ (by decide) (by decide),
      (by decide :
        LdrawToThreeTs.parseLine "0 !LICENSE Licensed under CC BY 4.0".toList = none),
      parseLine_nil,
      (by decide : LdrawToThreeTs.parseLine "0 BFC CERTIFY CCW".toList = none)]
    rfl
  have htail :
      (List.filterMap LdrawToThreeTs.parseLine [LdrawBuilderTs.stepLine, []]) = [] := by
    simp only [List.filterMap_cons,
      (by decide : LdrawToThreeTs.parseLine LdrawBuilderTs.stepLine = none),
      parseLine_nil]
    rfl
  rw [hheaders, htail]
  simp only [List.nil_append, List.append_nil]
  have : ∀ ps : List LdrawBuilderTs.PartPlacement,
      (∀ p ∈ ps, p.partName.toList ≠ [] ∧ ∀ c ∈ p.partName.toList, isWsChar c = false) →
      List.filterMap LdrawToThreeTs.parseLine (ps.map LdrawBuilderTs.partLine)
        = ps.map LdrawToThreeTs.renderedOf := by
    intro ps
    induction ps with
    | nil => intro _; rfl
    | cons p ps' ih =>
      intro h
      simp only [List.map_cons, List.filterMap_cons,
        parseLine_partLine p (h p (by simp)).1 (h p (by simp)).2]
      rw [ih (fun m hm => h m (by simp [hm]))]
  exact this b.parts hparts

/-- **C1, counterexample.**  The claim asks that `Parse(Serialize(m))`
reproduce the placement fields identically, the Y-sign flip *not* being baked
into the parsed representation.  For the one-part model of the spec's own
concrete scenario (`addPart('3001', 4, 0, -8, -20)`), the repository's parser
returns the second coordinate as `8`, not `-8`: the flip is baked in, so the
claimed field-for-field equality fails. -/
theorem c1_roundtrip_counterexample :
    LdrawToThreeTs.parseLDrawFile
        (LdrawBuilderTs.generateLDraw (LdrawBuilderTs.addPart {} "3001" 4 0 (-8) (-20)))
      ≠ (LdrawBuilderTs.addPart {} "3001" 4 0 (-8) (-20)).parts.map
          LdrawToThreeTs.claimedOf
    ∧ (LdrawToThreeTs.parseLDrawFile
        (LdrawBuilderTs.generateLDraw
          (LdrawBuilderTs.addPart {} "3001" 4 0 (-8) (-20)))).map (·.py)
      = [some 8]
    ∧ ((LdrawBuilderTs.addPart {} "3001" 4 0 (-8) (-20)).parts.map
        LdrawToThreeTs.claimedOf).map (·.py)
      = [some (-8)] := by
  refine ⟨by decide, by decide, by decide⟩

/-- **C1, witness.**  The amended round-trip theorem applied to the concrete
one-part model: the hypotheses hold and the parse returns the part with the
second coordinate negated. -/
theorem c1_roundtrip_witness :
    (∀ c ∈ (LdrawBuilderTs.addPart {} "3001" 4 0 (-8) (-20)).modelName.toList,
        (c == '\n') = false)
    ∧ (∀ c ∈ (LdrawBuilderTs.addPart {} "3001" 4 0 (-8) (-20)).author.toList,
        (c == '\n') = false)
    ∧ (∀ p ∈ (LdrawBuilderTs.addPart {} "3001" 4 0 (-8) (-20)).parts,
        p.partName.toList ≠ [] ∧ ∀ c ∈ p.partName.toList, isWsChar c = false)
    ∧ LdrawToThreeTs.parseLDrawFile
        (LdrawBuilderTs.generateLDraw (LdrawBuilderTs.addPart {} "3001" 4 0 (-8) (-20)))
      = (LdrawBuilderTs.addPart {} "3001" 4 0 (-8) (-20)).parts.map
          LdrawToThreeTs.renderedOf :=
  ⟨by decide, by decide, by decide,
    c1_roundtrip_parse_negates_y _ (by decide) (by decide) (by decide)⟩

/-! ### C9: parser line acceptance -/

theorem length_filterMap_eq_countP {α β} (f : α → Option β) :
    ∀ l : List α, (l.filterMap f).length = l.countP (fun a => (f a).isSome) := by
  intro l
  induction l with
  | nil => rfl
  | cons a as ih =>
    rw [List.filterMap_cons, List.countP_cons]
    cases hf : f a with
    | none => simp [hf, ih]
    | some b => simp [hf, ih]

/-- The code's acceptance condition for one line. -/
def lineAccepted (line : List Char) : Bool :=
  isPrefixCh ['1', ' '] (trimChars line) &&
    decide (15 ≤ (wordsChars (trimChars line)).length)

theorem parseLine_isSome_iff (line : List Char) :
    (LdrawToThreeTs.parseLine line).isSome = lineAccepted line := by
  unfold LdrawToThreeTs.parseLine lineAccepted
  cases hpre : isPrefixCh ['1', ' '] (trimChars line) with
  | false => simp [hpre]
  | true =>
    cases hlen : decide (15 ≤ (wordsChars (trimChars line)).length) with
    | false =>
      simp only [hpre, if_true, Bool.true_and]
      rw [if_neg (by simpa using hlen)]
      simp [hlen]
    | true =>
      simp only [hpre, if_true, Bool.true_and]
      rw [if_pos (by simpa using hlen)]
      simp [hlen]

theorem isPrefixCh_two_iff (a b : Char) (l : List Char) :
    isPrefixCh [a, b] l = true ↔ ∃ rest, l = a :: b :: rest := by
  constructor
  · intro h
    match l with
    | [] => simp [isPrefixCh] at h
    | [c] => simp [isPrefixCh] at h
    | c :: d :: rest =>
      simp only [isPrefixCh, Bool.and_eq_true, beq_iff_eq] at h
      exact ⟨rest, by rw [h.1, h.2.1]⟩
  · rintro ⟨rest, rfl⟩
    simp [isPrefixCh]

/-- **C9.**  Amended acceptance criterion: a line contributes a placement iff
its trimmed text begins with the character `1` followed by a literal space
character (not just any whitespace) and splits into at least 15 tokens; every
other line is silently ignored, the parser is a total function, and each
document's placement count is exactly the number of accepted lines.  When a
line is accepted, the claim's phrasing also holds: its first
whitespace-separated token is `1` and it has at least 15 tokens — the
correction is only that the converse fails (see the counterexample). -/
theorem c9_parser_line_acceptance :
    (∀ content : String,
      (LdrawToThreeTs.parseLDrawFile content).length
        = (splitOnChar '\n' content.toList).countP lineAccepted)
    ∧ (∀ line : List Char,
        (LdrawToThreeTs.parseLine line).isSome = lineAccepted line)
    ∧ (∀ line : List Char, lineAccepted line = true →
        (wordsChars (trimChars line)).headD [] = ['1']
        ∧ 15 ≤ (wordsChars (trimChars line)).length) := by
  refine ⟨?_, parseLine_isSome_iff, ?_⟩
  · intro content
    unfold LdrawToThreeTs.parseLDrawFile
    rw [length_filterMap_eq_countP]
    congr 1
    funext l
    exact parseLine_isSome_iff l
  · intro line h
    unfold lineAccepted at h
    simp only [Bool.and_eq_true, decide_eq_true_eq] at h
    obtain ⟨rest, hrest⟩ := (isPrefixCh_two_iff '1' ' ' (trimChars line)).mp h.1
    constructor
    · have : wordsChars (trimChars line) = ['1'] :: wordsChars rest := by
        rw [hrest]
        exact wordsChars_cons_word rest ['1'] (by simp) (by intro c hc; simp at hc; subst hc; decide)
      rw [this]
      rfl
    · exact h.2

/-- **C9, counterexample.**  A line whose first whitespace-separated token is
the placement marker `1` and which has 15 tokens, but where the marker is
separated by a tab instead of a space: the claim says it contributes a
placement, yet `parseLDrawFile` ignores it because the code tests
`trimmed.startsWith('1 ')` with a literal space. -/
theorem c9_parser_counterexample :
    (wordsChars (trimChars
        ('1' :: '\t' :: "16 0 0 0 1 0 0 0 1 0 0 0 1 3001.dat".toList))).headD []
      = ['1']
    ∧ 15 ≤ (wordsChars (trimChars
        ('1' :: '\t' :: "16 0 0 0 1 0 0 0 1 0 0 0 1 3001.dat".toList))).length
    ∧ LdrawToThreeTs.parseLDrawFile
        (String.mk ('1' :: '\t' :: "16 0 0 0 1 0 0 0 1 0 0 0 1 3001.dat".toList))
      = [] := by
  refine ⟨by decide, by decide, by decide⟩

/-- **C9, witness.**  The acceptance consequence applied to a concrete
accepted line. -/
theorem c9_parser_witness :
    lineAccepted "1 16 0 0 0 1 0 0 0 1 0 0 0 1 3001.dat".toList = true
    ∧ ((wordsChars (trimChars "1 16 0 0 0 1 0 0 0 1 0 0 0 1 3001.dat".toList)).headD []
        = ['1']
      ∧ 15 ≤ (wordsChars (trimChars "1 16 0 0 0 1 0 0 0 1 0 0 0 1 3001.dat".toList)).length) :=
  ⟨by decide, c9_parser_line_acceptance.2.2 _ (by decide)⟩

/-! ### C8 and C10: builder mutator properties -/

theorem addStep_last_step (b : CodeEditorTs.EBuilder)
    (h : b.elements.getLast? = some CodeEditorTs.LElement.step) :
    CodeEditorTs.addStep b = b := by
  unfold CodeEditorTs.addStep
  rw [h]
  simp

theorem addStep_last_none (b : CodeEditorTs.EBuilder)
    (h : b.elements.getLast? = none) :
    CodeEditorTs.addStep b = b := by
  unfold CodeEditorTs.addStep
  rw [h]

theorem addStep_appends (b : CodeEditorTs.EBuilder) (e : CodeEditorTs.LElement)
    (h : b.elements.getLast? = some e) (hne : e ≠ CodeEditorTs.LElement.step) :
    CodeEditorTs.addStep b
      = { b with elements := b.elements ++ [CodeEditorTs.LElement.step] } := by
  unfold CodeEditorTs.addStep
  rw [h]
  simp [hne]

/-- **C8.**  `addStep` appends a step marker exactly when the element list is
non-empty and does not already end in one (second conjunct), and the call is
idempotent, so two calls in a row append exactly one marker and a call on an
empty model appends none (first conjunct; the empty case is the `else` arm of
the characterization). -/
theorem c8_addStep_collapse :
    ∀ b : CodeEditorTs.EBuilder,
      (CodeEditorTs.addStep (CodeEditorTs.addStep b)).elements
        = (CodeEditorTs.addStep b).elements
      ∧ (CodeEditorTs.addStep b).elements
        = (if b.elements ≠ [] ∧ b.elements.getLast? ≠ some CodeEditorTs.LElement.step
           then b.elements ++ [CodeEditorTs.LElement.step]
           else b.elements) := by
  intro b
  cases hlast : b.elements.getLast? with
  | none =>
    have hnil : b.elements = [] := by
      cases hel : b.elements with
      | nil => rfl
      | cons x xs =>
        rw [hel] at hlast
        simp [List.getLast?_concat] at hlast
    rw [addStep_last_none b hlast, addStep_last_none b hlast,
      if_neg (by simp [hnil])]
    exact ⟨rfl, rfl⟩
  | some e =>
    have hne : b.elements ≠ [] := by
      intro h
      rw [h] at hlast
      simp at hlast
    by_cases he : e = CodeEditorTs.LElement.step
    · subst he
      rw [addStep_last_step b hlast, addStep_last_step b hlast,
        if_neg (by simp [hlast])]
      exact ⟨rfl, rfl⟩
    · have h1 := addStep_appends b e hlast he
      have h2 : (CodeEditorTs.addStep b).elements.getLast?
          = some CodeEditorTs.LElement.step := by
        rw [h1]
        simp
      rw [addStep_last_step _ h2, h1, if_pos ⟨hne, by simp [hlast, he]⟩]
      exact ⟨rfl, rfl⟩

/-- **C10.**  Every placement call (`addPart` and its wrappers, in both
builder variants) appends exactly one element at the end of the element list
and leaves every previously appended element, the model name, the author and
the current color unchanged; when the orientation arguments are omitted
(`addPart` defaults, `addBrick`, `addPlate`, `addWheel`) the appended
element's orientation is the identity `1 0 0 0 1 0 0 0 1`, and `addWheel`
forces color 0. -/
theorem c10_placement_frame :
    ∀ (b : CodeEditorTs.EBuilder) (b0 : LdrawBuilderTs.LDrawBuilder)
      (pn : String) (col x y z : Int),
      (CodeEditorTs.addPart b pn col x y z)
        = { b with elements := b.elements ++
            [CodeEditorTs.LElement.part
              { color := col, x := x, y := y, z := z,
                a := 1, b := 0, c := 0, d := 0, e := 1, f := 0,
                g := 0, h := 0, i := 1, partName := pn ++ ".dat" }] }
      ∧ CodeEditorTs.addBrick b pn col x y z = CodeEditorTs.addPart b pn col x y z
      ∧ CodeEditorTs.addPlate b pn col x y z = CodeEditorTs.addPart b pn col x y z
      ∧ CodeEditorTs.addWheel b pn x y z = CodeEditorTs.addPart b pn 0 x y z
      ∧ (CodeEditorTs.addPartRotatedY90 b pn col x y z)
        = { b with elements := b.elements ++
            [CodeEditorTs.LElement.part
              { color := col, x := x, y := y, z := z,
                a := 0, b := 0, c := -1, d := 0, e := 1, f := 0,
                g := 1, h := 0, i := 0, partName := pn ++ ".dat" }] }
      ∧ (CodeEditorTs.addPartRotatedX90 b pn col x y z)
        = { b with elements := b.elements ++
            [CodeEditorTs.LElement.part
              { color := col, x := x, y := y, z := z,
                a := 1, b := 0, c := 0, d := 0, e := 0, f := -1,
                g := 0, h := 1, i := 0, partName := pn ++ ".dat" }] }
      ∧ (LdrawBuilderTs.addPart b0 pn col x y z)
        = { b0 with parts := b0.parts ++
            [{ color := col, x := x, y := y, z := z,
               a := 1, b := 0, c := 0, d := 0, e := 1, f := 0,
               g := 0, h := 0, i := 1, partName := pn ++ ".dat" }] }
      ∧ LdrawBuilderTs.addBrick b0 pn col x y z = LdrawBuilderTs.addPart b0 pn col x y z
      ∧ LdrawBuilderTs.addPlate b0 pn col x y z = LdrawBuilderTs.addPart b0 pn col x y z
      ∧ LdrawBuilderTs.addWheel b0 pn x y z = LdrawBuilderTs.addPart b0 pn 0 x y z := by
  intro b b0 pn col x y z
  exact ⟨rfl, rfl, rfl, rfl, rfl, rfl, rfl, rfl, rfl, rfl⟩

/-! ### C7: trailing step guarantee -/

theorem isStepOrBlank_partLine (p : LdrawBuilderTs.PartPlacement) :
    isStepOrBlank (LdrawBuilderTs.partLine p) = false := by
  unfold isStepOrBlank
  have hhead : (LdrawBuilderTs.partLine p).headD ' ' = '1' := rfl
  have h1 : (LdrawBuilderTs.partLine p == LdrawBuilderTs.stepLine) = false := by
    rw [beq_eq_false_iff_ne]
    intro h
    rw [h] at hhead
    exact absurd hhead (by decide)
  have h2 : (LdrawBuilderTs.partLine p == ([] : List Char)) = false := by
    rw [beq_eq_false_iff_ne]
    intro h
    rw [h] at hhead
    exact absurd hhead (by decide)
  rw [h1, h2]
  rfl

theorem stepTail_decompose (pre : List (List Char)) (x : List Char)
    (suf : List (List Char)) (hx : isStepOrBlank x = false)
    (hsuf : ∀ l ∈ suf, isStepOrBlank l = true) :
    stepTail (pre ++ x :: suf) = suf.reverse := by
  unfold stepTail
  rw [List.reverse_append, List.reverse_cons,
    show suf.reverse ++ [x] ++ pre.reverse = suf.reverse ++ x :: pre.reverse by simp,
    takeWhile_append_stop _ x pre.reverse hx suf.reverse
      (by intro a ha; exact hsuf a (by simpa using ha))]

theorem lastNonBlank_decompose (pre : List (List Char)) (x : List Char)
    (suf : List (List Char)) (ts : List (List Char))
    (h : suf.reverse.dropWhile (fun l => l == ([] : List Char))
      = LdrawBuilderTs.stepLine :: ts) :
    lastNonBlank (pre ++ x :: suf) = some LdrawBuilderTs.stepLine := by
  unfold lastNonBlank
  rw [List.reverse_append, List.reverse_cons,
    show suf.reverse ++ [x] ++ pre.reverse = suf.reverse ++ x :: pre.reverse by simp,
    dropWhile_append_left _ (x :: pre.reverse) suf.reverse (by rw [h]; simp), h]
  rfl

/-- The serializer output of the editor builder ends in exactly one step
directive whenever the element list does not end in two adjacent step
markers (which the public API never produces). -/
theorem editor_trailing_step (b : CodeEditorTs.EBuilder)
    (hinv : lastTwoSteps b.elements = false) :
    lastNonBlank (CodeEditorTs.generateLines b) = some LdrawBuilderTs.stepLine
    ∧ trailingStepCount (CodeEditorTs.generateLines b) = 1 := by
  obtain ⟨els, col, name, author⟩ := b
  rcases List.eq_nil_or_concat els with hnil | ⟨l', e, hcat⟩
  · subst hnil
    have hform : CodeEditorTs.generateLines
        { elements := [], currentColor := col, modelName := name, author := author }
        = [("0 " ++ name).toList, "0 Name: generated.ldr".toList,
           ("0 Author: " ++ author).toList,
           "0 !LICENSE Licensed under CC BY 4.0".toList, []]
          ++ "0 BFC CERTIFY CCW".toList
            :: [[], LdrawBuilderTs.stepLine, []] := by
      unfold CodeEditorTs.generateLines CodeEditorTs.endsInStep
      simp
    rw [hform]
    constructor
    · exact lastNonBlank_decompose _ _ _ [[]] (by decide)
    · unfold trailingStepCount
      rw [stepTail_decompose _ _ _ (by decide) (by decide)]
      decide
  · rw [List.concat_eq_append] at hcat
    subst hcat
    cases e with
    | part p =>
      have hends : CodeEditorTs.endsInStep (l' ++ [CodeEditorTs.LElement.part p])
          = false := by
        unfold CodeEditorTs.endsInStep
        rw [List.getLast?_concat]
      have hform : CodeEditorTs.generateLines
          { elements := l' ++ [CodeEditorTs.LElement.part p], currentColor := col,
            modelName := name, author := author }
          = ([("0 " ++ name).toList, "0 Name: generated.ldr".toList,
              ("0 Author: " ++ author).toList,
              "0 !LICENSE Licensed under CC BY 4.0".toList, [],
              "0 BFC CERTIFY CCW".toList, []]
             ++ l'.flatMap CodeEditorTs.elemLines)
            ++ LdrawBuilderTs.partLine p :: [LdrawBuilderTs.stepLine, []] := by
        unfold CodeEditorTs.generateLines
        rw [hends, List.flatMap_append]
        simp [CodeEditorTs.elemLines]
      rw [hform]
      constructor
      · exact lastNonBlank_decompose _ _ _ [] (by decide)
      · unfold trailingStepCount
        rw [stepTail_decompose _ _ _ (isStepOrBlank_partLine p) (by decide)]
        decide
    | step =>
      have hlast : (l' ++ [CodeEditorTs.LElement.step]).getLast?
          = some CodeEditorTs.LElement.step := List.getLast?_concat _
      have hends : CodeEditorTs.endsInStep (l' ++ [CodeEditorTs.LElement.step])
          = true := by
        unfold CodeEditorTs.endsInStep
        rw [hlast]
      have hl' : l'.getLast? ≠ some CodeEditorTs.LElement.step := by
        intro h
        unfold lastTwoSteps at hinv
        rw [List.dropLast_concat, hlast, h] at hinv
        simp at hinv
      rcases List.eq_nil_or_concat l' with hnil | ⟨l'', e', hcat'⟩
      · subst hnil
        have hform : CodeEditorTs.generateLines
            { elements := [CodeEditorTs.LElement.step], currentColor := col,
              modelName := name, author := author }
            = [("0 " ++ name).toList, "0 Name: generated.ldr".toList,
               ("0 Author: " ++ author).toList,
               "0 !LICENSE Licensed under CC BY 4.0".toList, []]
              ++ "0 BFC CERTIFY CCW".toList
                :: [[], LdrawBuilderTs.stepLine, [], []] := by
          unfold CodeEditorTs.generateLines
          rw [show ([] : List CodeEditorTs.LElement) ++ [CodeEditorTs.LElement.step]
              = [CodeEditorTs.LElement.step] from rfl] at hends
          rw [hends]
          simp [CodeEditorTs.elemLines]
        rw [show ([] : List CodeEditorTs.LElement) ++ [CodeEditorTs.LElement.step]
            = [CodeEditorTs.LElement.step] from rfl, hform]
        constructor
        · exact lastNonBlank_decompose _ _ _ [[]] (by decide)
        · unfold trailingStepCount
          rw [stepTail_decompose _ _ _ (by decide) (by decide)]
          decide
      · rw [List.concat_eq_append] at hcat'
        subst hcat'
        cases e' with
        | step => exact absurd (List.getLast?_concat _) hl'
        | part q =>
          have hform : CodeEditorTs.generateLines
              { elements := (l'' ++ [CodeEditorTs.LElement.part q])
                  ++ [CodeEditorTs.LElement.step],
                currentColor := col, modelName := name, author := author }
              = ([("0 " ++ name).toList, "0 Name: generated.ldr".toList,
                  ("0 Author: " ++ author).toList,
                  "0 !LICENSE Licensed under CC BY 4.0".toList, [],
                  "0 BFC CERTIFY CCW".toList, []]
                 ++ l''.flatMap CodeEditorTs.elemLines)
                ++ LdrawBuilderTs.partLine q
                  :: [LdrawBuilderTs.stepLine, [], []] := by
            unfold CodeEditorTs.generateLines
            rw [hends, List.flatMap_append, List.flatMap_append]
            simp [CodeEditorTs.elemLines]
          rw [hform]
          constructor
          · exact lastNonBlank_decompose _ _ _ [] (by decide)
          · unfold trailingStepCount
            rw [stepTail_decompose _ _ _ (isStepOrBlank_partLine q) (by decide)]
            decide

theorem lastTwoSteps_nil : lastTwoSteps [] = false := rfl

theorem lastTwoSteps_concat_part (els : List CodeEditorTs.LElement)
    (p : LdrawBuilderTs.PartPlacement) :
    lastTwoSteps (els ++ [CodeEditorTs.LElement.part p]) = false := by
  unfold lastTwoSteps
  rw [List.getLast?_concat]
  cases (els ++ [CodeEditorTs.LElement.part p]).dropLast.getLast? with
  | none => rfl
  | some e => cases e <;> rfl

theorem lastTwoSteps_applyOp (b : CodeEditorTs.EBuilder)
    (op : CodeEditorTs.BuilderOp) (h : lastTwoSteps b.elements = false) :
    lastTwoSteps (CodeEditorTs.applyOp b op).elements = false := by
  cases op with
  | setModelName n => exact h
  | setAuthor a => exact h
  | setColor c => exact h
  | clear => exact lastTwoSteps_nil
  | addStep =>
    show lastTwoSteps (CodeEditorTs.addStep b).elements = false
    cases hlast : b.elements.getLast? with
    | none => rw [addStep_last_none b hlast]; exact h
    | some e =>
      by_cases he : e = CodeEditorTs.LElement.step
      · subst he
        rw [addStep_last_step b hlast]
        exact h
      · rw [addStep_appends b e hlast he]
        show lastTwoSteps (b.elements ++ [CodeEditorTs.LElement.step]) = false
        unfold lastTwoSteps
        rw [List.dropLast_concat, List.getLast?_concat, hlast]
        cases e with
        | part p => rfl
        | step => exact absurd rfl he
  | addPart pn col x y z a bb c d e f g hm i =>
    exact lastTwoSteps_concat_part _ _
  | addBrick pn col x y z => exact lastTwoSteps_concat_part _ _
  | addPlate pn col x y z => exact lastTwoSteps_concat_part _ _
  | addWheel pn x y z => exact lastTwoSteps_concat_part _ _
  | addPartRotatedY90 pn col x y z => exact lastTwoSteps_concat_part _ _
  | addPartRotatedX90 pn col x y z => exact lastTwoSteps_concat_part _ _

theorem lastTwoSteps_applyOps (ops : List CodeEditorTs.BuilderOp) :
    lastTwoSteps (CodeEditorTs.applyOps ops).elements = false := by
  unfold CodeEditorTs.applyOps
  have : ∀ (b : CodeEditorTs.EBuilder), lastTwoSteps b.elements = false →
      lastTwoSteps ((ops.foldl CodeEditorTs.applyOp b).elements) = false := by
    induction ops with
    | nil => intro b h; exact h
    | cons op ops' ih =>
      intro b h
      exact ih (CodeEditorTs.applyOp b op) (lastTwoSteps_applyOp b op h)
  exact this {} rfl

/-- The CLI serializer (`ldrawBuilder.ts`) also ends every document in
exactly one step directive: it appends `0 STEP` unconditionally and the part
list contains no step lines. -/
theorem cli_trailing_step (b : LdrawBuilderTs.LDrawBuilder) :
    lastNonBlank (LdrawBuilderTs.generateLines b) = some LdrawBuilderTs.stepLine
    ∧ trailingStepCount (LdrawBuilderTs.generateLines b) = 1 := by
  obtain ⟨parts, col, name, author⟩ := b
  rcases List.eq_nil_or_concat parts with hnil | ⟨ps, p, hcat⟩
  · subst hnil
    have hform : LdrawBuilderTs.generateLines
        { parts := [], currentColor := col, modelName := name, author := author }
        = [("0 " ++ name).toList, "0 Name: model.ldr".toList,
           ("0 Author: " ++ author).toList,
           "0 !LICENSE Licensed under CC BY 4.0".toList, []]
          ++ "0 BFC CERTIFY CCW".toList :: [[], LdrawBuilderTs.stepLine, []] := by
      unfold LdrawBuilderTs.generateLines
      simp
    rw [hform]
    constructor
    · exact lastNonBlank_decompose _ _ _ [[]] (by decide)
    · unfold trailingStepCount
      rw [stepTail_decompose _ _ _ (by decide) (by decide)]
      decide
  · rw [List.concat_eq_append] at hcat
    subst hcat
    have hform : LdrawBuilderTs.generateLines
        { parts := ps ++ [p], currentColor := col, modelName := name,
          author := author }
        = ([("0 " ++ name).toList, "0 Name: model.ldr".toList,
            ("0 Author: " ++ author).toList,
            "0 !LICENSE Licensed under CC BY 4.0".toList, [],
            "0 BFC CERTIFY CCW".toList, []]
           ++ ps.map LdrawBuilderTs.partLine)
          ++ LdrawBuilderTs.partLine p :: [LdrawBuilderTs.stepLine, []] := by
      unfold LdrawBuilderTs.generateLines
      rw [List.map_append]
      simp
    rw [hform]
    constructor
    · exact lastNonBlank_decompose _ _ _ [] (by decide)
    · unfold trailingStepCount
      rw [stepTail_decompose _ _ _ (isStepOrBlank_partLine p) (by decide)]
      decide

/-- **C7.**  For every builder state reachable through the public API — in
particular one whose last call placed a part, and one where the author never
requested a step — the serialized document ends with exactly one trailing
step directive (followed only by cosmetic blank lines): the editor serializer
appends a final `0 STEP` iff the element sequence does not already end in a
step marker, and the CLI serializer appends its unconditional `0 STEP` to a
part list that contains no step lines. -/
theorem c7_trailing_step_guarantee :
    (∀ ops : List CodeEditorTs.BuilderOp,
      lastNonBlank (CodeEditorTs.generateLines (CodeEditorTs.applyOps ops))
        = some LdrawBuilderTs.stepLine
      ∧ trailingStepCount (CodeEditorTs.generateLines (CodeEditorTs.applyOps ops)) = 1)
    ∧ (∀ b : LdrawBuilderTs.LDrawBuilder,
      lastNonBlank (LdrawBuilderTs.generateLines b) = some LdrawBuilderTs.stepLine
      ∧ trailingStepCount (LdrawBuilderTs.generateLines b) = 1) :=
  ⟨fun ops => editor_trailing_step _ (lastTwoSteps_applyOps ops), cli_trailing_step⟩

/-! ### C2: failed loads and the previously displayed model -/

/-- **C2, counterexample.**  Model 100 is displayed after a successful load
of `"a"`.  A subsequent load of `"b"` fails — and afterwards nothing is
displayed: the coordinator removed and disposed model 100 when the new load
*began*, and the failure handler restores nothing (it only logs to the
console, surfacing nothing).  The claim that the previously visible model
remains in the scene is false. -/
theorem c2_failed_load_counterexample :
    (LdrViewer.runTrace [LdrViewer.Event.request "a",
        LdrViewer.Event.succeed 0 100]).modelGroup = some 100
    ∧ (LdrViewer.runTrace [LdrViewer.Event.request "a",
        LdrViewer.Event.succeed 0 100]).scene = [100]
    ∧ (LdrViewer.runTrace [LdrViewer.Event.request "a", LdrViewer.Event.succeed 0 100,
        LdrViewer.Event.request "b", LdrViewer.Event.fail 1]).modelGroup = none
    ∧ (LdrViewer.runTrace [LdrViewer.Event.request "a", LdrViewer.Event.succeed 0 100,
        LdrViewer.Event.request "b", LdrViewer.Event.fail 1]).scene = []
    ∧ (LdrViewer.runTrace [LdrViewer.Event.request "a", LdrViewer.Event.succeed 0 100,
        LdrViewer.Event.request "b", LdrViewer.Event.fail 1]).disposed = [100] := by
  refine ⟨by decide, by decide, by decide, by decide, by decide⟩

/-- **C2.**  Amended failure behavior: the failure handler of a live
(non-cancelled, not-yet-settled) load only clears the loading flag — it does
not itself touch the displayed model or the scene (first conjunct) — but a
load request that passes the guards has already removed the displayed model
at load start, so after it fails nothing is visible: every request either
leaves the state exactly as the cleanup left it (an early-returned, dropped
request) or leaves the display slot empty (second conjunct).  Errors are only
logged; no error value reaches the page. -/
theorem c2_failed_load_amended (s : LdrViewer.ViewerState) (r : Nat)
    (info : LdrViewer.RunInfo) (hr : s.runs.get? r = some info)
    (hcomp : info.completed = false) (hcanc : info.cancelled = false) :
    ((LdrViewer.completeFailure r s).modelGroup = s.modelGroup
      ∧ (LdrViewer.completeFailure r s).scene = s.scene
      ∧ (LdrViewer.completeFailure r s).disposed = s.disposed
      ∧ (LdrViewer.completeFailure r s).isLoading = false)
    ∧ (∀ id : String,
        LdrViewer.requestLoad id s = LdrViewer.cancelTarget s
        ∨ (LdrViewer.requestLoad id s).modelGroup = none) := by
  constructor
  · unfold LdrViewer.completeFailure
    rw [hr]
    simp [hcomp, hcanc]
  · intro id
    unfold LdrViewer.requestLoad LdrViewer.effectBody
    simp only []
    split
    · exact Or.inl rfl
    · split
      · exact Or.inl rfl
      · split
        · exact Or.inl rfl
        · right
          split
          · rfl
          · next hmg => exact hmg

/-- **C2, witness.**  The amended theorem applied to the concrete state in
which model 100 was displayed and a load of `"b"` (run 1) is in flight. -/
theorem c2_failed_load_witness :
    ((LdrViewer.runTrace [LdrViewer.Event.request "a", LdrViewer.Event.succeed 0 100,
        LdrViewer.Event.request "b"]).runs.get? 1
      = some { cancelled := false, completed := false })
    ∧ (((LdrViewer.completeFailure 1
          (LdrViewer.runTrace [LdrViewer.Event.request "a",
            LdrViewer.Event.succeed 0 100,
            LdrViewer.Event.request "b"])).modelGroup
        = (LdrViewer.runTrace [LdrViewer.Event.request "a",
            LdrViewer.Event.succeed 0 100,
            LdrViewer.Event.request "b"]).modelGroup
      ∧ (LdrViewer.completeFailure 1
          (LdrViewer.runTrace [LdrViewer.Event.request "a",
            LdrViewer.Event.succeed 0 100,
            LdrViewer.Event.request "b"])).scene
        = (LdrViewer.runTrace [LdrViewer.Event.request "a",
            LdrViewer.Event.succeed 0 100,
            LdrViewer.Event.request "b"]).scene
      ∧ (LdrViewer.completeFailure 1
          (LdrViewer.runTrace [LdrViewer.Event.request "a",
            LdrViewer.Event.succeed 0 100,
            LdrViewer.Event.request "b"])).disposed
        = (LdrViewer.runTrace [LdrViewer.Event.request "a",
            LdrViewer.Event.succeed 0 100,
            LdrViewer.Event.request "b"]).disposed
      ∧ (LdrViewer.completeFailure 1
          (LdrViewer.runTrace [LdrViewer.Event.request "a",
            LdrViewer.Event.succeed 0 100,
            LdrViewer.Event.request "b"])).isLoading = false)
      ∧ ∀ id : String,
          LdrViewer.requestLoad id
            (LdrViewer.runTrace [LdrViewer.Event.request "a",
              LdrViewer.Event.succeed 0 100,
              LdrViewer.Event.request "b"])
            = LdrViewer.cancelTarget
              (LdrViewer.runTrace [LdrViewer.Event.request "a",
                LdrViewer.Event.succeed 0 100,
                LdrViewer.Event.request "b"])
          ∨ (LdrViewer.requestLoad id
              (LdrViewer.runTrace [LdrViewer.Event.request "a",
                LdrViewer.Event.succeed 0 100,
                LdrViewer.Event.request "b"])).modelGroup = none) :=
  ⟨by decide,
    c2_failed_load_amended _ 1 { cancelled := false, completed := false }
      (by decide) rfl rfl⟩

/-! ### C3: staleness handling -/

/-- **C3, counterexample.**  Two load requests are issued in order (`"a"`
then `"b"`); the first's I/O then completes.  There is no generation counter
in the code: the second request is dropped whole by the concurrent-load guard
(only one run was ever issued, and the current path still names the first
request), and the first request's result is discarded by its cancellation
flag without clearing the loading flag.  The displayed model is `none` — not
the later request's model as the claim requires — and the viewer is stuck
loading. -/
theorem c3_staleness_counterexample :
    (LdrViewer.runTrace [LdrViewer.Event.request "a", LdrViewer.Event.request "b",
        LdrViewer.Event.succeed 0 100]).modelGroup = none
    ∧ (LdrViewer.runTrace [LdrViewer.Event.request "a", LdrViewer.Event.request "b",
        LdrViewer.Event.succeed 0 100]).runs.length = 1
    ∧ (LdrViewer.runTrace [LdrViewer.Event.request "a", LdrViewer.Event.request "b",
        LdrViewer.Event.succeed 0 100]).currentPath = "a"
    ∧ (LdrViewer.runTrace [LdrViewer.Event.request "a", LdrViewer.Event.request "b",
        LdrViewer.Event.succeed 0 100]).isLoading = true
    ∧ (LdrViewer.runTrace [LdrViewer.Event.request "a", LdrViewer.Event.request "b",
        LdrViewer.Event.succeed 0 100]).scene = [] := by
  refine ⟨by decide, by decide, by decide, by decide, by decide⟩

/-- **C3.**  Amended staleness behavior: the coordinator has no generation
counter.  (1) A request arriving while any load is in flight is dropped: no
new run is issued and the state is exactly what the effect cleanup left
(only the pending run's `cancelled` flag may change).  (2) When a cancelled
run's load completes, its result is discarded without touching the display,
the scene, or even the loading flag — so the superseded result is indeed
never applied, but no later-generation result is applied either, because the
later request never started. -/
theorem c3_staleness_amended (s : LdrViewer.ViewerState) (hload : s.isLoading = true) :
    (∀ id : String, LdrViewer.requestLoad id s = LdrViewer.cancelTarget s)
    ∧ (∀ (r g : Nat) (info : LdrViewer.RunInfo), s.runs.get? r = some info →
        info.cancelled = true → info.completed = false →
        ((LdrViewer.completeSuccess r g s).modelGroup = s.modelGroup
          ∧ (LdrViewer.completeSuccess r g s).scene = s.scene
          ∧ (LdrViewer.completeSuccess r g s).isLoading = true
          ∧ (LdrViewer.completeSuccess r g s).currentPath = s.currentPath)) := by
  constructor
  · intro id
    have hload' : (LdrViewer.cancelTarget s).isLoading = true := by
      unfold LdrViewer.cancelTarget
      cases h : s.cleanupTarget with
      | none => exact hload
      | some t => exact hload
    unfold LdrViewer.requestLoad LdrViewer.effectBody
    simp only []
    repeat' split
    all_goals rfl
  · intro r g info hr hcanc hcomp
    unfold LdrViewer.completeSuccess
    rw [hr]
    simp [hcomp, hcanc, hload]

/-- **C3, witness.**  The amended theorem applied to the state right after
the first request was issued (a load of `"a"` is in flight). -/
theorem c3_staleness_witness :
    (LdrViewer.runTrace [LdrViewer.Event.request "a"]).isLoading = true
    ∧ ((∀ id : String,
        LdrViewer.requestLoad id (LdrViewer.runTrace [LdrViewer.Event.request "a"])
          = LdrViewer.cancelTarget (LdrViewer.runTrace [LdrViewer.Event.request "a"]))
      ∧ (∀ (r g : Nat) (info : LdrViewer.RunInfo),
          (LdrViewer.runTrace [LdrViewer.Event.request "a"]).runs.get? r = some info →
          info.cancelled = true → info.completed = false →
          ((LdrViewer.completeSuccess r g
              (LdrViewer.runTrace [LdrViewer.Event.request "a"])).modelGroup
            = (LdrViewer.runTrace [LdrViewer.Event.request "a"]).modelGroup
          ∧ (LdrViewer.completeSuccess r g
              (LdrViewer.runTrace [LdrViewer.Event.request "a"])).scene
            = (LdrViewer.runTrace [LdrViewer.Event.request "a"]).scene
          ∧ (LdrViewer.completeSuccess r g
              (LdrViewer.runTrace [LdrViewer.Event.request "a"])).isLoading = true
          ∧ (LdrViewer.completeSuccess r g
              (LdrViewer.runTrace [LdrViewer.Event.request "a"])).currentPath
            = (LdrViewer.runTrace [LdrViewer.Event.request "a"]).currentPath))) :=
  ⟨by decide, c3_staleness_amended _ (by decide)⟩

/-! ### C4: static validation -/

/-- **C4.**  Amended validation guarantee: any source text matching one of
the denylist patterns — `process.`, `import` + whitespace, `eval(`,
`Function(`, `exec(`, `spawn(`, `__dirname`, `__filename`, `fs.`, `path.`,
or the require pattern when neither allowlisted `./ldrawBuilder` require
string is present — is rejected by `validateCode`, and the build handler then
fails with the validation error without ever executing the script.  (For the
require pattern specifically, the allowlist exception disables the *whole*
check as soon as an allowed require appears anywhere; see the
counterexample.) -/
theorem c4_validation_rejects (code : String)
    (h : containsSubChars "process.".toList code.toList = true
      ∨ (CodeExecutorTs.matchesRequireAnywhere code.toList = true
          ∧ CodeExecutorTs.allowedRequire code.toList = false)
      ∨ CodeExecutorTs.matchesImportAnywhere code.toList = true
      ∨ CodeExecutorTs.matchesCallAnywhere "eval".toList code.toList = true
      ∨ CodeExecutorTs.matchesCallAnywhere "Function".toList code.toList = true
      ∨ CodeExecutorTs.matchesCallAnywhere "exec".toList code.toList = true
      ∨ CodeExecutorTs.matchesCallAnywhere "spawn".toList code.toList = true
      ∨ containsSubChars "__dirname".toList code.toList = true
      ∨ containsSubChars "__filename".toList code.toList = true
      ∨ containsSubChars "fs.".toList code.toList = true
      ∨ containsSubChars "path.".toList code.toList = true) :
    CodeExecutorTs.validateCode code = false
    ∧ (ServerTs.handleBuild code).executed = false
    ∧ (ServerTs.handleBuild code).errorMsg = some "Generated code failed validation" := by
  have hdanger : CodeExecutorTs.dangerousHit code.toList = true := by
    unfold CodeExecutorTs.dangerousHit
    simp only [Bool.or_eq_true, Bool.and_eq_true, Bool.not_eq_true']
    rcases h with h | ⟨h1, h2⟩ | h | h | h | h | h | h | h | h | h
    all_goals tauto
  have hval : CodeExecutorTs.validateCode code = false := by
    unfold CodeExecutorTs.validateCode
    simp only []
    rw [hdanger]
    simp
  refine ⟨hval, ?_, ?_⟩ <;>
    · unfold ServerTs.handleBuild
      rw [hval]
      simp

/-- **C4, witness.**  A script reading the host environment
(`process.exit()`-style access via the `process.` pattern) is rejected and
never executed. -/
theorem c4_validation_witness :
    containsSubChars "process.".toList "process.env.SECRET".toList = true
    ∧ (CodeExecutorTs.validateCode "process.env.SECRET" = false
      ∧ (ServerTs.handleBuild "process.env.SECRET").executed = false
      ∧ (ServerTs.handleBuild "process.env.SECRET").errorMsg
        = some "Generated code failed validation") :=
  ⟨by decide, c4_validation_rejects "process.env.SECRET" (Or.inl (by decide))⟩

/-- The claim's counterexample script: it contains the allowlisted
`require('./ldrawBuilder')` *and* a denylisted `require('os')`. -/
def c4BadCode : String :=
  "const builder = new LDrawBuilder(); const a = require("
    ++ String.mk [CodeExecutorTs.sq] ++ "./ldrawBuilder"
    ++ String.mk [CodeExecutorTs.sq] ++ "); const os = require("
    ++ String.mk [CodeExecutorTs.sq] ++ "os" ++ String.mk [CodeExecutorTs.sq] ++ ");"

/-- **C4, counterexample.**  `c4BadCode` contains a module-loading pattern
(`require('os')`) that the allowlist exception does not cover, so the claim
requires rejection — yet `validateCode` accepts it and the build handler runs
it: the `continue` in the validator skips the entire require check whenever
an allowed require string appears anywhere in the source. -/
theorem c4_validation_counterexample :
    CodeExecutorTs.disallowedRequirePresent c4BadCode.toList = true
    ∧ CodeExecutorTs.validateCode c4BadCode = true
    ∧ (ServerTs.handleBuild c4BadCode).executed = true := by
  refine ⟨by decide, by decide, by decide⟩

/-! ### C5: deadlines -/

/-- **C5.**  Amended timeout behavior: the Node-side engine aborts exactly
the scripts that have not finished within the *fixed* 5000 ms of its options
object — there is no caller-supplied `deadlineMs` anywhere — while the
browser editor path runs the compiled function with no timeout at all, so it
yields a result iff the script terminates by itself. -/
theorem c5_timeout_amended :
    CodeExecutorTs.executorRunOptions.timeout = 5000
    ∧ (∀ s : CodeExecutorTs.ScriptTiming,
        CodeExecutorTs.runScriptWithTimeout CodeExecutorTs.executorRunOptions s
          = CodeExecutorTs.VmOutcome.timedOut
        ↔ (s.millis = none ∨ ∃ t, s.millis = some t ∧ 5000 < t))
    ∧ (∀ s : CodeExecutorTs.ScriptTiming,
        CodeExecutorTs.runScriptNoTimeout s = none ↔ s.millis = none) := by
  refine ⟨rfl, ?_, ?_⟩
  · intro s
    unfold CodeExecutorTs.runScriptWithTimeout
    cases hm : s.millis with
    | none => simp
    | some t =>
      show (if t ≤ CodeExecutorTs.executorRunOptions.timeout
            then CodeExecutorTs.VmOutcome.finished
            else CodeExecutorTs.VmOutcome.timedOut)
          = CodeExecutorTs.VmOutcome.timedOut
        ↔ (some t = none ∨ ∃ t2, some t = some t2 ∧ 5000 < t2)
      by_cases ht : t ≤ CodeExecutorTs.executorRunOptions.timeout
      · rw [if_pos ht]
        simp only [CodeExecutorTs.executorRunOptions] at ht
        constructor
        · intro h; exact absurd h (by simp)
        · rintro (h | ⟨t', ht', hgt⟩)
          · simp at h
          · injection ht' with he
            omega
      · rw [if_neg ht]
        simp only [CodeExecutorTs.executorRunOptions] at ht
        constructor
        · intro _; exact Or.inr ⟨t, rfl, by omega⟩
        · intro _; rfl
  · intro s
    unfold CodeExecutorTs.runScriptNoTimeout
    constructor
    · intro h; exact h
    · intro h; exact h

/-- **C5, counterexample.**  The claim fails twice on concrete inputs: a
non-terminating script run through the editor path never produces any
outcome at all (no `TimeoutError`, the host is blocked), and a script that
needs 1000 ms completes normally on the Node path even though the claim's
`deadlineMs = 50` scenario would require it to time out — the 5000 ms limit
is a constant, not a caller-supplied deadline. -/
theorem c5_timeout_counterexample :
    CodeExecutorTs.runScriptNoTimeout { millis := none } = none
    ∧ CodeExecutorTs.runScriptWithTimeout CodeExecutorTs.executorRunOptions
        { millis := some 1000 } = CodeExecutorTs.VmOutcome.finished
    ∧ CodeExecutorTs.executorRunOptions.timeout = 5000 := by
  refine ⟨rfl, by decide, rfl⟩

/-! ### C6: completion signals -/

/-- **C6.**  Amended completion recognition.  Node engine: the wrapper
recognizes only the builder/save form — if a `builder` binding with a `save`
method exists it saves and succeeds regardless of the script's return value,
and otherwise it fails with `No builder instance found or save method not
called` *even when the script returned a document string* (the claim's first
completion signal is not recognized there).  Editor variant: a run with
neither signal emits no output events and raises nothing — there is no
`NoOutputError` anywhere. -/
theorem c6_completion_signals (n d : String) (r : CodeExecutorTs.ScriptResultState)
    (_hret : r.returnedDoc = some d) (hnob : r.hasBuilderWithSave = false) :
    CodeExecutorTs.executeGeneratedCodeResult n r
      = CodeExecutorTs.NodeExecOutcome.failed
          "No builder instance found or save method not called"
    ∧ (∀ r2 : CodeExecutorTs.ScriptResultState, r2.hasBuilderWithSave = true →
        CodeExecutorTs.executeGeneratedCodeResult n r2
          = CodeExecutorTs.NodeExecOutcome.saved r2.builderDoc (n ++ ".ldr"))
    ∧ (∀ (lp : Bool) (fn : String),
        CodeEditorTs.resultEvents lp fn { returned := none, saveCalls := [] } = []) := by
  refine ⟨?_, ?_, ?_⟩
  · unfold CodeExecutorTs.executeGeneratedCodeResult
    rw [hnob]
    simp
  · intro r2 h2
    unfold CodeExecutorTs.executeGeneratedCodeResult
    rw [h2]
    simp
  · intro lp fn
    unfold CodeEditorTs.resultEvents
    simp

/-- **C6, witness.**  The amended theorem at a concrete run that returned a
document string but defined no builder. -/
theorem c6_completion_witness :
    ({ returnedDoc := some "0 doc", hasBuilderWithSave := false, builderDoc := "" }
        : CodeExecutorTs.ScriptResultState).returnedDoc = some "0 doc"
    ∧ (CodeExecutorTs.executeGeneratedCodeResult "m"
        { returnedDoc := some "0 doc", hasBuilderWithSave := false, builderDoc := "" }
      = CodeExecutorTs.NodeExecOutcome.failed
          "No builder instance found or save method not called"
      ∧ (∀ r2 : CodeExecutorTs.ScriptResultState, r2.hasBuilderWithSave = true →
          CodeExecutorTs.executeGeneratedCodeResult "m" r2
            = CodeExecutorTs.NodeExecOutcome.saved r2.builderDoc ("m" ++ ".ldr"))
      ∧ (∀ (lp : Bool) (fn : String),
          CodeEditorTs.resultEvents lp fn { returned := none, saveCalls := [] } = [])) :=
  ⟨rfl, c6_completion_signals "m" "0 doc" _ rfl rfl⟩

/-- **C6, counterexample.**  A run whose script returned a serialized
document string — a valid completion signal per the claim — but created no
top-level `builder` binding: the Node engine rejects it instead of
recognizing the returned document.  And a run with *neither* signal, in the
editor, completes silently with no events and no error, where the claim
requires a `NoOutputError`. -/
theorem c6_completion_counterexample :
    CodeExecutorTs.executeGeneratedCodeResult "m"
        { returnedDoc := some "0 my model", hasBuilderWithSave := false, builderDoc := "" }
      = CodeExecutorTs.NodeExecOutcome.failed
          "No builder instance found or save method not called"
    ∧ CodeEditorTs.resultEvents true "my_model" { returned := none, saveCalls := [] }
      = [] := by
  refine ⟨by decide, by decide⟩
